import Mathlib

/-!
# UltraPing: a shallow embedding of the ranging driver

The driver (`UltraPing.cpp`, `UltraPing.h`) is embedded as pure functions.

* Compile-time switches of the header are the fields of `Config`.
* Machine integers are natural numbers reduced explicitly: `unsigned long` is
  32 bits wide, `unsigned int` is `Config.uintBits` wide (16 on AVR, 32 on ARM).
* The platform is a `World`: the levels that successive `readEcho()` calls will
  return, the values that successive `micros()` calls will return, and the log of
  output actions performed so far.  A driver function returns `none` when the
  world holds too few readings for the function to reach a `return`.
* `ping_median` is written over the operations it calls (`PingEnv`), so that what is
  proved of it holds whatever the pings return and however long they take.  The pings
  performed are read off a platform that records them itself (`PingEnv.recording`).
* A call of `ping_multi` is followed pass by pass: `ping_multi_starts` lists the states
  in which the passes through the loop body start, and `ping_multi_first` is the part
  of a pass up to the first-echo rule.
* The millisecond timer is embedded through its counters (`TimerState`), the
  handler `timer_ms_cntdwn` being invoked once for every millisecond.
-/

namespace UltraPing

/-! ## Configuration (the compile-time switches of `UltraPing.h`) -/

/-- Compile-time configuration: the defaults are those of an AVR build in centimetres. -/
structure Config where
  /-- Width in bits of `unsigned int`. -/
  uintBits : Nat := 16
  /-- The constant `ULTRAPING_US_ROUNDTRIP_LENGTH`. -/
  usRoundtripLength : Nat := 57
  /-- The constant `ULTRAPING_MAX_SENSOR_DISTANCE`. -/
  maxSensorDistance : Nat := 500
  /-- The switch `ULTRAPING_ONE_PIN_ENABLED`. -/
  onePinEnabled : Bool := true
  /-- The switch `ULTRAPING_ROUNDING_ENABLED`. -/
  roundingEnabled : Bool := false
  /-- The switch `ULTRAPING_URM37_ENABLED` (the echo line is then active low). -/
  urm37Enabled : Bool := false
  /-- The constant `ULTRAPING_PING_OVERHEAD`. -/
  pingOverhead : Nat := 5
  /-- The constant `ULTRAPING_PING_TIMER_OVERHEAD`. -/
  pingTimerOverhead : Nat := 13
  deriving DecidableEq, Repr

/-- The default AVR build: 16-bit `unsigned int`, centimetres, no rounding. -/
def avr : Config := {}

/-- A non-AVR build (Teensy 3.x and others): 32-bit `unsigned int`, overheads of 1. -/
def arm : Config := { uintBits := 32, pingOverhead := 1, pingTimerOverhead := 1 }

/-- The default AVR build with `ULTRAPING_ROUNDING_ENABLED` set to true. -/
def avrRounding : Config := { roundingEnabled := true }

/-- The constant `ULTRAPING_NO_ECHO`. -/
def NO_ECHO : Nat := 0

/-- The constant `ULTRAPING_MAX_SENSOR_DELAY`. -/
def MAX_SENSOR_DELAY : Nat := 5800

/-- The constant `ULTRAPING_PING_MEDIAN_DELAY`. -/
def PING_MEDIAN_DELAY : Nat := 29000

/-- Number of values of an `unsigned long`. -/
def ULONG : Nat := 2 ^ 32

/-- Number of values of an `unsigned int` in the given build. -/
def Config.UINT (cfg : Config) : Nat := 2 ^ cfg.uintBits

/-- Subtraction of `unsigned long` values. -/
def subL (a b : Nat) : Nat := (a % ULONG + (ULONG - b % ULONG)) % ULONG

/-- Addition of `unsigned long` values. -/
def addL (a b : Nat) : Nat := (a + b) % ULONG

/-- Conversion of a value to `unsigned int`. -/
def Config.toUInt (cfg : Config) (a : Nat) : Nat := a % cfg.UINT

/-- The macro `ULTRAPING_ISACTIVE`. -/
def Config.isActive (cfg : Config) (value : Bool) : Bool :=
  if cfg.urm37Enabled then !value else value

/-- The macro `ULTRAPING_ISNOTACTIVE`. -/
def Config.isNotActive (cfg : Config) (value : Bool) : Bool :=
  if cfg.urm37Enabled then value else !value

/-- The macro `ULTRAPING_THREE_QUARTERS`. -/
def THREE_QUARTERS (value : Nat) : Nat := value / 2 + value / 4

/-! ## Sensor object and platform -/

/-- The data members of an `UltraPing` object that the ranging protocol uses. -/
structure Sensor where
  /-- The member `_maxEchoTime` (an `unsigned int`). -/
  maxEchoTime : Nat
  /-- The member `_max_time` (an `unsigned long`). -/
  max_time : Nat
  /-- The member `ping_result` (an `unsigned long`). -/
  ping_result : Nat := 0
  deriving DecidableEq, Repr

/-- An output action of the driver on the platform. -/
inductive Action where
  | triggerModeOutput
  | triggerModeInput
  | triggerLow
  | triggerHigh
  | delayMicroseconds (us : Nat)
  | delay (ms : Nat)
  | timerStop
  deriving DecidableEq, Repr

/-- The platform as the driver sees it. -/
structure World where
  /-- Pin levels returned by the coming calls of `readEcho()`. -/
  echo : List Bool
  /-- Values returned by the coming calls of `micros()`. -/
  clock : List Nat
  /-- Output actions performed so far, oldest first. -/
  actions : List Action := []
  deriving DecidableEq, Repr

/-- Perform an output action. -/
def World.act (w : World) (a : Action) : World :=
  { w with actions := w.actions ++ [a] }

/-- The call `readEcho()`: the next level of the echo pin. -/
def readEcho (w : World) : Option (Bool × World) :=
  match w.echo with
  | [] => none
  | e :: es => some (e, { w with echo := es })

/-- The call `micros()`: the next clock reading, an `unsigned long`. -/
def micros (w : World) : Option (Nat × World) :=
  match w.clock with
  | [] => none
  | c :: cs => some (c % ULONG, { w with clock := cs })

/-! ## `set_max_distance` -/

/-- The method `UltraPing::set_max_distance`. -/
def set_max_distance (cfg : Config) (max_distance : Nat) (s : Sensor) : Sensor :=
  if cfg.roundingEnabled = false then
    { s with maxEchoTime :=
        cfg.toUInt (min (cfg.toUInt (max_distance + 1)) (cfg.toUInt (cfg.maxSensorDistance + 1))
          * cfg.usRoundtripLength) }
  else
    { s with maxEchoTime :=
        cfg.toUInt (min max_distance (cfg.toUInt cfg.maxSensorDistance) * cfg.usRoundtripLength
          + cfg.usRoundtripLength / 2) }

/-! ## `ping_trigger` and `ping` -/

/-- A loop `while (cond(readEcho())) { if (micros() > deadline) return ...; }`.
The result is `false` when the loop was left by the `return` (deadline passed)
and `true` when it was left because the condition became false; the lists are the
readings not yet consumed. -/
def pollEcho (cond : Bool → Bool) (deadline : Nat) :
    List Bool → List Nat → Option (Bool × List Bool × List Nat)
  | [], _ => none
  | e :: es, cs =>
    if cond e then
      match cs with
      | [] => none
      | c :: cs' =>
        if c % ULONG > deadline then some (false, es, cs')
        else pollEcho cond deadline es cs'
    else some (true, es, cs)

/-- The loop of `pollEcho` run on a world. -/
def World.poll (w : World) (cond : Bool → Bool) (deadline : Nat) : Option (Bool × World) :=
  match pollEcho cond deadline w.echo w.clock with
  | none => none
  | some (ok, es, cs) => some (ok, { w with echo := es, clock := cs })

/-- The trigger pulse at the start of `ping_trigger` (lines 206 to 218). -/
def triggerPulse (cfg : Config) (w : World) : World :=
  let w := if cfg.onePinEnabled then w.act Action.triggerModeOutput else w
  let w := w.act Action.triggerLow
  let w := w.act (Action.delayMicroseconds 4)
  let w := w.act Action.triggerHigh
  let w := w.act (Action.delayMicroseconds 10)
  let w := w.act Action.triggerLow
  if cfg.onePinEnabled then w.act Action.triggerModeInput else w

/-- The method `UltraPing::ping_trigger`. -/
def ping_trigger (cfg : Config) (s : Sensor) (w : World) : Option (Bool × Sensor × World) :=
  match readEcho (triggerPulse cfg w) with
  | none => none
  | some (e, w1) =>
    if cfg.isActive e then some (false, s, w1)
    else
      match micros w1 with
      | none => none
      | some (t0, w2) =>
        let s1 := { s with max_time := addL (addL t0 s.maxEchoTime) MAX_SENSOR_DELAY }
        match w2.poll cfg.isNotActive s1.max_time with
        | none => none
        | some (false, w3) => some (false, s1, w3)
        | some (true, w3) =>
          match micros w3 with
          | none => none
          | some (t1, w4) => some (true, { s1 with max_time := addL t1 s1.maxEchoTime }, w4)

/-- The method `UltraPing::ping`. -/
def ping (cfg : Config) (max_distance : Nat) (s : Sensor) (w : World) :
    Option (Nat × Sensor × World) :=
  let s0 := if max_distance > 0 then set_max_distance cfg max_distance s else s
  match ping_trigger cfg s0 w with
  | none => none
  | some (false, s1, w1) => some (NO_ECHO, s1, w1)
  | some (true, s1, w1) =>
    match w1.poll cfg.isActive s1.max_time with
    | none => none
    | some (false, w2) => some (NO_ECHO, s1, w2)
    | some (true, w2) =>
      match micros w2 with
      | none => none
      | some (t, w3) =>
        some (cfg.toUInt (subL (subL t (subL s1.max_time s1.maxEchoTime)) cfg.pingOverhead),
              s1, w3)

/-! ## `ping_multi` and `ping_threshold` -/

/-- The local variables of `ping_multi` that live across iterations of its outer
loop, with the caller's buffer, the sensor object and the platform. -/
structure MultiState where
  /-- The local `offset` (an `unsigned int`). -/
  offset : Nat
  /-- The local `i`, the number of hits recorded so far. -/
  i : Nat
  /-- The caller's buffer `hit[]`. -/
  hit : List Nat
  sensor : Sensor
  world : World
  deriving DecidableEq, Repr

/-- How one pass through the body of the outer loop of `ping_multi` ends. -/
inductive MultiStep where
  /-- A `return ret;` was executed. -/
  | done (ret : Nat) (st : MultiState)
  /-- The end of the loop body was reached. -/
  | again (st : MultiState)
  deriving DecidableEq, Repr

/-- The state in which a pass through the loop body ends. -/
def MultiStep.state : MultiStep → MultiState
  | MultiStep.done _ st => st
  | MultiStep.again st => st

/-- The value returned when a pass through the loop body ends by a `return`. -/
def MultiStep.returned : MultiStep → Option Nat
  | MultiStep.done ret _ => some ret
  | MultiStep.again _ => none

/-- The loop `while (micros() < target);` of line 98: the readings left over. -/
def spinUntil (target : Nat) : List Nat → Option (List Nat)
  | [] => none
  | c :: cs => if c % ULONG < target then spinUntil target cs else some cs

/-- Lines 98 to 120 of `ping_multi`: the wait, the second pulse and the
disambiguation. No `i++` can wrap, because `i < maximum_hits` holds before it. -/
def ping_multi_second (cfg : Config) (maximum_hits : Nat)
    (first_max_time first_start first_length : Nat) (st : MultiState) : Option MultiStep :=
  match spinUntil (addL first_start st.offset) st.world.clock with
  | none => none
  | some cs =>
    match ping_trigger cfg st.sensor { st.world with clock := cs } with
    | none => none
    | some (false, s2, w5) => some (MultiStep.done 0 { st with sensor := s2, world := w5 })
    | some (true, s2, w5) =>
      match w5.poll cfg.isActive first_max_time with
      | none => none
      | some (false, w6) => some (MultiStep.done st.i { st with sensor := s2, world := w6 })
      | some (true, w6) =>
        match micros w6 with
        | none => none
        | some (second_end_time, w7) =>
          let lengthSecond :=
            subL (subL second_end_time (subL s2.max_time s2.maxEchoTime)) cfg.pingOverhead
          let st1 : MultiState :=
            if lengthSecond < THREE_QUARTERS first_length then
              { offset := cfg.toUInt (subL second_end_time first_start)
                i := st.i + 1
                hit := st.hit.set st.i (cfg.toUInt (subL second_end_time first_start))
                sensor := s2
                world := w7 }
            else
              { offset := cfg.toUInt (st.offset + first_length / 2)
                i := st.i
                hit := st.hit
                sensor := s2
                world := w7 }
          if st1.i < maximum_hits then
            some (MultiStep.again
              { st1 with world := st1.world.act (Action.delay (PING_MEDIAN_DELAY / 1000)) })
          else some (MultiStep.again st1)

/-- One pass through the body of the outer loop of `ping_multi` (lines 80 to 120). -/
def ping_multi_body (cfg : Config) (maximum_hits threshold_distance : Nat)
    (st : MultiState) : Option MultiStep :=
  match ping_trigger cfg st.sensor st.world with
  | none => none
  | some (false, s1, w1) => some (MultiStep.done 0 { st with sensor := s1, world := w1 })
  | some (true, s1, w1) =>
    let first_max_time := s1.max_time
    let first_start := subL (subL s1.max_time s1.maxEchoTime) cfg.pingOverhead
    match w1.poll cfg.isActive s1.max_time with
    | none => none
    | some (false, w2) => some (MultiStep.done st.i { st with sensor := s1, world := w2 })
    | some (true, w2) =>
      match micros w2 with
      | none => none
      | some (t, w3) =>
        let first_length := cfg.toUInt (subL t first_start)
        let st0 : MultiState := { st with sensor := s1, world := w3 }
        if st0.offset = 0 then
          if first_length > cfg.toUInt (threshold_distance * cfg.usRoundtripLength) then
            let st1 : MultiState :=
              { st0 with offset := first_length
                         i := st0.i + 1
                         hit := st0.hit.set st0.i first_length }
            if st1.i ≥ maximum_hits then some (MultiStep.done st1.i st1)
            else ping_multi_second cfg maximum_hits first_max_time first_start first_length st1
          else
            ping_multi_second cfg maximum_hits first_max_time first_start first_length
              { st0 with offset := cfg.toUInt (threshold_distance * cfg.usRoundtripLength) }
        else ping_multi_second cfg maximum_hits first_max_time first_start first_length st0

/-- The outer loop `while (i < maximum_hits)` of `ping_multi`, followed by the
final `return i;`. Every pass reads the echo pin at least once, so a number of passes
equal to the number of echo readings available is never exceeded. -/
def ping_multi_loop (cfg : Config) (maximum_hits threshold_distance : Nat) :
    Nat → MultiState → Option (Nat × MultiState)
  | 0, st => if st.i < maximum_hits then none else some (st.i, st)
  | fuel + 1, st =>
    if st.i < maximum_hits then
      match ping_multi_body cfg maximum_hits threshold_distance st with
      | none => none
      | some (MultiStep.done ret st1) => some (ret, st1)
      | some (MultiStep.again st1) => ping_multi_loop cfg maximum_hits threshold_distance fuel st1
    else some (st.i, st)

/-- The method `UltraPing::ping_multi`: the value returned and the final state, whose
field `hit` is the caller's buffer after the call and whose field `i` is the number
of hits recorded. -/
def ping_multi (cfg : Config) (hit : List Nat) (maximum_hits threshold_distance
    max_distance : Nat) (s : Sensor) (w : World) : Option (Nat × MultiState) :=
  let s0 := if max_distance > 0 then set_max_distance cfg max_distance s else s
  ping_multi_loop cfg maximum_hits threshold_distance w.echo.length
    { offset := 0, i := 0, hit := hit, sensor := s0, world := w }

/-- The method `UltraPing::ping_threshold`. -/
def ping_threshold (cfg : Config) (threshold_distance max_distance : Nat)
    (s : Sensor) (w : World) : Option (Nat × Sensor × World) :=
  match ping_multi cfg [NO_ECHO] 1 threshold_distance max_distance s w with
  | none => none
  | some (_, st) => some (st.hit.getD 0 0, st.sensor, st.world)

/-- The values with which a pass through the loop body of `ping_multi` reaches the
wait of line 98. -/
structure MultiMid where
  /-- The local `first_max_time`. -/
  first_max_time : Nat
  /-- The local `first_start`. -/
  first_start : Nat
  /-- The clock reading of line 87, taken when the first echo was found ended. -/
  first_end : Nat
  /-- The local `first_length`. -/
  first_length : Nat
  /-- The other variables, after the first-echo rule of lines 89 to 96. -/
  st : MultiState
  deriving DecidableEq, Repr

/-- How lines 80 to 96 of a pass through the loop body of `ping_multi` end. -/
inductive MultiFirst where
  /-- A `return ret;` was executed. -/
  | returned (ret : Nat) (st : MultiState)
  /-- Line 98 was reached. -/
  | goesOn (m : MultiMid)
  deriving DecidableEq, Repr

/-- Lines 80 to 96 of `ping_multi`: the first pulse, the wait for the end of its echo
and the first-echo rule. -/
def ping_multi_first (cfg : Config) (maximum_hits threshold_distance : Nat)
    (st : MultiState) : Option MultiFirst :=
  match ping_trigger cfg st.sensor st.world with
  | none => none
  | some (false, s1, w1) => some (MultiFirst.returned 0 { st with sensor := s1, world := w1 })
  | some (true, s1, w1) =>
    let first_max_time := s1.max_time
    let first_start := subL (subL s1.max_time s1.maxEchoTime) cfg.pingOverhead
    match w1.poll cfg.isActive s1.max_time with
    | none => none
    | some (false, w2) => some (MultiFirst.returned st.i { st with sensor := s1, world := w2 })
    | some (true, w2) =>
      match micros w2 with
      | none => none
      | some (t, w3) =>
        let first_length := cfg.toUInt (subL t first_start)
        let st0 : MultiState := { st with sensor := s1, world := w3 }
        if st0.offset = 0 then
          if first_length > cfg.toUInt (threshold_distance * cfg.usRoundtripLength) then
            let st1 : MultiState :=
              { st0 with offset := first_length
                         i := st0.i + 1
                         hit := st0.hit.set st0.i first_length }
            if st1.i ≥ maximum_hits then some (MultiFirst.returned st1.i st1)
            else some (MultiFirst.goesOn
              { first_max_time := first_max_time, first_start := first_start,
                first_end := t, first_length := first_length, st := st1 })
          else
            some (MultiFirst.goesOn
              { first_max_time := first_max_time, first_start := first_start,
                first_end := t, first_length := first_length,
                st := { st0 with
                  offset := cfg.toUInt (threshold_distance * cfg.usRoundtripLength) } })
        else
          some (MultiFirst.goesOn
            { first_max_time := first_max_time, first_start := first_start,
              first_end := t, first_length := first_length, st := st0 })

/-- The states in which the passes through the loop body of `ping_multi` start, in
order, for a loop started in the given state. -/
def ping_multi_passes (cfg : Config) (maximum_hits threshold_distance : Nat) :
    Nat → MultiState → List MultiState
  | 0, _ => []
  | fuel + 1, st =>
    if st.i < maximum_hits then
      st :: (match ping_multi_body cfg maximum_hits threshold_distance st with
        | some (MultiStep.again st1) =>
          ping_multi_passes cfg maximum_hits threshold_distance fuel st1
        | _ => [])
    else []

/-- The states in which the passes through the loop body start during a call of
`ping_multi`: the first one is the state with `offset = 0` and `i = 0`. -/
def ping_multi_starts (cfg : Config) (hit : List Nat) (maximum_hits threshold_distance
    max_distance : Nat) (s : Sensor) (w : World) : List MultiState :=
  let s0 := if max_distance > 0 then set_max_distance cfg max_distance s else s
  ping_multi_passes cfg maximum_hits threshold_distance w.echo.length
    { offset := 0, i := 0, hit := hit, sensor := s0, world := w }

/-! ## `ping_median` -/

/-- The operations that `ping_median` invokes, over an arbitrary platform state. -/
structure PingEnv (σ : Type) where
  /-- The call `micros()`. -/
  micros : σ → Nat × σ
  /-- The call `ping(max_distance)`. -/
  ping : Nat → σ → Nat × σ
  /-- The call `delay(ms)`. -/
  delay : Nat → σ → σ

/-- The local variables of `ping_median` with the platform state; `log` records,
oldest first, the start timestamp `t` and the result `last` of every ping made. -/
structure MedianState (σ : Type) where
  /-- The array `uS`. -/
  uS : List Nat
  /-- The local `i`, the number of valid pings stored. -/
  i : Nat
  /-- The parameter `it`, decremented at every discarded ping. -/
  it : Nat
  env : σ
  log : List (Nat × Nat)

/-- The insertion sort loop `for (j = i; j > 0 && uS[j - 1] < last; j--) uS[j] = uS[j - 1];`
started at `j`: the final `j` and the array. -/
def shiftLoop (last : Nat) : Nat → List Nat → Nat × List Nat
  | 0, uS => (0, uS)
  | j + 1, uS =>
    if uS.getD j 0 < last then shiftLoop last j (uS.set (j + 1) (uS.getD j 0))
    else (j + 1, uS)

/-- One pass through the body of the loop of `ping_median` (lines 138 to 151). -/
def ping_median_body {σ : Type} (env : PingEnv σ) (max_distance : Nat)
    (st : MedianState σ) : MedianState σ :=
  let (t, e1) := env.micros st.env
  let (last, e2) := env.ping max_distance e1
  let st1 : MedianState σ :=
    if last ≠ NO_ECHO then
      let (j, uS) := if st.i > 0 then shiftLoop last st.i st.uS else (0, st.uS)
      { uS := uS.set j last, i := st.i + 1, it := st.it, env := e2,
        log := st.log ++ [(t, last)] }
    else
      { uS := st.uS, i := st.i, it := st.it - 1, env := e2, log := st.log ++ [(t, last)] }
  if st1.i < st1.it then
    let (m1, e3) := env.micros st1.env
    if subL m1 t < PING_MEDIAN_DELAY then
      let (m2, e4) := env.micros e3
      { st1 with env := env.delay (subL (addL PING_MEDIAN_DELAY t) m2 / 1000) e4 }
    else { st1 with env := e3 }
  else st1

/-- The loop `while (i < it)` of `ping_median`, run for at most the given number of
passes. -/
def ping_median_loop {σ : Type} (env : PingEnv σ) (max_distance : Nat) :
    Nat → MedianState σ → MedianState σ
  | 0, st => st
  | fuel + 1, st =>
    if st.i < st.it then ping_median_loop env max_distance fuel (ping_median_body env max_distance st)
    else st

/-- The method `UltraPing::ping_median`: the value returned and the final state. The
loop is given `it` passes, which it never exceeds. The elements of `uS` that
the source leaves uninitialised start at 0. -/
def ping_median {σ : Type} (env : PingEnv σ) (it max_distance : Nat) (e : σ) :
    Nat × MedianState σ :=
  let st := ping_median_loop env max_distance it
    { uS := (List.replicate it 0).set 0 NO_ECHO, i := 0, it := it, env := e, log := [] }
  (st.uS.getD (st.it >>> 1) 0, st)

/-- A simulated platform for `ping_median`: the time in microseconds and, for each
coming ping, how long it takes and what it returns. -/
structure Sim where
  now : Nat
  script : List (Nat × Nat)
  deriving DecidableEq, Repr

/-- The operations on the simulated platform: `micros()` reads the time, `delay(ms)`
waits `ms` milliseconds, and a ping takes the scripted time and returns the scripted
result (a ping beyond the script returns `NO_ECHO` at once). -/
def simEnv : PingEnv Sim where
  micros := fun e => (e.now % ULONG, e)
  ping := fun _ e =>
    match e.script with
    | [] => (NO_ECHO, e)
    | (duration, result) :: rest => (result, { now := e.now + duration, script := rest })
  delay := fun ms e => { e with now := e.now + 1000 * ms }

/-! ## `convert_length` -/

/-- The method `UltraPing::convert_length`, the expansion of the conversion
`ULTRAPING_US_2_LENGTH_UNIT` on an `unsigned int` argument. -/
def convert_length (cfg : Config) (echoTime : Nat) : Nat :=
  if cfg.roundingEnabled = false then
    cfg.toUInt echoTime / cfg.usRoundtripLength
  else
    max (cfg.toUInt (cfg.toUInt echoTime + cfg.usRoundtripLength / 2) / cfg.usRoundtripLength)
      (if cfg.toUInt echoTime ≠ 0 then 1 else 0)

/-! ## Timer methods -/

/-- The method `UltraPing::timer_stop`: the timer interrupt is disabled. -/
def timer_stop (w : World) : World := w.act Action.timerStop

/-- The method `UltraPing::check_timer`. -/
def check_timer (cfg : Config) (s : Sensor) (w : World) : Option (Bool × Sensor × World) :=
  match micros w with
  | none => none
  | some (t, w1) =>
    if t > s.max_time then some (false, s, timer_stop w1)
    else
      match readEcho w1 with
      | none => none
      | some (e, w2) =>
        if cfg.isActive e then
          match micros (timer_stop w2) with
          | none => none
          | some (t2, w3) =>
            let result := subL (subL t2 (subL s.max_time s.maxEchoTime)) cfg.pingTimerOverhead
            some (true, { s with ping_result := result }, w3)
        else some (false, s, w2)

/-- The file-scope variables of the millisecond timer, with the number of times the
user's function `intFunc2` has been called. -/
structure TimerState where
  /-- The variable `_ms_cnt` (a `volatile unsigned long`). -/
  ms_cnt : Nat
  /-- The variable `_ms_cnt_reset` (an `unsigned long`). -/
  ms_cnt_reset : Nat
  /-- Calls of `intFunc2` so far. -/
  calls : Nat
  deriving DecidableEq, Repr

/-- The method `UltraPing::timer_ms`, as far as the counters go: the hardware timer is
set to invoke `timer_ms_cntdwn` once every millisecond. -/
def timer_ms (frequency : Nat) : TimerState :=
  { ms_cnt := frequency % ULONG, ms_cnt_reset := frequency % ULONG, calls := 0 }

/-- The method `UltraPing::timer_ms_cntdwn`: `if (!_ms_cnt--) { intFunc2(); _ms_cnt =
_ms_cnt_reset; }`. -/
def timer_ms_cntdwn (t : TimerState) : TimerState :=
  let t1 := { t with ms_cnt := subL t.ms_cnt 1 }
  if t.ms_cnt = 0 then { t1 with calls := t1.calls + 1, ms_cnt := t1.ms_cnt_reset }
  else t1

/-- The timer state after `n` invocations of `timer_ms_cntdwn`. -/
def timerAfter (frequency : Nat) : Nat → TimerState
  | 0 => timer_ms frequency
  | n + 1 => timer_ms_cntdwn (timerAfter frequency n)

/-- Whether invocation number `n` (counted from 1) of `timer_ms_cntdwn` calls the
user's function. -/
def userCalledAt (frequency n : Nat) : Bool :=
  decide ((timerAfter frequency n).calls ≠ (timerAfter frequency (n - 1)).calls)

/-! ## Specification vocabulary -/

/-- The valid (non-zero) results among the pings logged, oldest first. -/
def validResults (log : List (Nat × Nat)) : List Nat :=
  (log.map Prod.snd).filter (fun r => r ≠ NO_ECHO)

/-- The same operations on a platform that also keeps a record, oldest first, of the
result of every ping performed. Only the operation `ping` writes the record. -/
def PingEnv.recording {σ : Type} (env : PingEnv σ) : PingEnv (σ × List Nat) where
  micros := fun e => ((env.micros e.1).1, (env.micros e.1).2, e.2)
  ping := fun md e =>
    ((env.ping md e.1).1, (env.ping md e.1).2, e.2 ++ [(env.ping md e.1).1])
  delay := fun ms e => (env.delay ms e.1, e.2)

/-- The results of the pings performed during a call of `ping_median`, oldest first, as
the platform recorded them. -/
def pingsOf {σ : Type} (env : PingEnv σ) (it max_distance : Nat) (e : σ) : List Nat :=
  (ping_median env.recording it max_distance (e, [])).2.env.2

/-- The valid (non-zero) ones among a list of ping results. -/
def validPings (results : List Nat) : List Nat := results.filter (fun r => r ≠ NO_ECHO)

/-- The local variables of `ping_median` on a recording platform, seen on the platform
itself. -/
def MedianState.forget {σ : Type} (st : MedianState (σ × List Nat)) : MedianState σ :=
  { uS := st.uS, i := st.i, it := st.it, env := st.env.1, log := st.log }

/-- The loop invariant of `ping_median` for an initial sample target `it0`. -/
def MedianInv {σ : Type} (it0 : Nat) (st : MedianState σ) : Prop :=
  st.i ≤ st.it ∧ st.it ≤ it0 ∧ st.uS.length = it0 ∧ st.log.length + st.it = it0 + st.i ∧
  st.uS.take st.i = (validResults st.log).insertionSort (· ≥ ·)

/-- What a part of `ping_multi` may change: the hit count does not decrease, the
buffer keeps its length, and only elements from the old count up to the new count
are written. -/
def MultiFrame (st st1 : MultiState) : Prop :=
  st.i ≤ st1.i ∧ st1.hit.length = st.hit.length ∧
  ∀ j, (j < st.i ∨ st1.i ≤ j) → st1.hit[j]? = st.hit[j]?

/-- The value returned is the hit count, or 0 after a failed trigger (which only
happens while fewer than `maximum_hits` hits are recorded). -/
def MultiRet (maximum_hits ret : Nat) (st1 : MultiState) : Prop :=
  st1.i ≤ maximum_hits ∧ (ret = st1.i ∨ (ret = 0 ∧ st1.i < maximum_hits))

/-- The outcome of a part of `ping_multi` respects the frame and the hit count. -/
def MultiStepOK (maximum_hits : Nat) (st : MultiState) : MultiStep → Prop
  | MultiStep.done ret st1 => MultiFrame st st1 ∧ MultiRet maximum_hits ret st1
  | MultiStep.again st1 => MultiFrame st st1 ∧ st1.i ≤ maximum_hits

/-- A trigger failed in the pass started in `stk`, which was left in the state `stf`: the
call of `ping_trigger` of line 80, or the one of line 101 after the wait of line 98,
returned false. -/
def TriggerFailed (cfg : Config) (maximum_hits threshold_distance : Nat)
    (stk stf : MultiState) : Prop :=
  (∃ s1 w1, ping_trigger cfg stk.sensor stk.world = some (false, s1, w1) ∧
    stf = { stk with sensor := s1, world := w1 }) ∨
  (∃ m cs s2 w5,
    ping_multi_first cfg maximum_hits threshold_distance stk = some (MultiFirst.goesOn m) ∧
    spinUntil (addL m.first_start m.st.offset) m.st.world.clock = some cs ∧
    ping_trigger cfg m.st.sensor { m.st.world with clock := cs } = some (false, s2, w5) ∧
    stf = { m.st with sensor := s2, world := w5 })

/-- The values returned by the coming calls of `micros()` never decrease. -/
def ClockSorted (cs : List Nat) : Prop := (cs.map (fun c => c % ULONG)).Sorted (· ≤ ·)

instance (cs : List Nat) : Decidable (ClockSorted cs) := by
  unfold ClockSorted; exact inferInstance

/-- No time computed in the pass started in `st` wraps around or is truncated. For a pass
that reaches line 98 this says: `first_start`, the echo start less `PING_OVERHEAD`, does
not borrow; `first_length`, the clock reading less `first_start`, does not borrow and
fits an `unsigned int`; the target `first_start + offset` of the wait does not wrap;
and at the disambiguation either the hit `second_end_time - first_start` that is
recorded does not borrow and fits an `unsigned int`, or the sum
`offset + first_length / 2` that is stored fits an `unsigned int`. -/
def noWrapPass (cfg : Config) (maximum_hits threshold_distance : Nat) (st : MultiState) : Bool :=
  match ping_multi_first cfg maximum_hits threshold_distance st with
  | some (MultiFirst.goesOn m) =>
    decide (cfg.pingOverhead ≤ subL m.first_max_time m.st.sensor.maxEchoTime) &&
    decide (m.first_start ≤ m.first_end ∧ m.first_end - m.first_start < cfg.UINT) &&
    decide (m.first_start + m.st.offset < ULONG) &&
    (match spinUntil (addL m.first_start m.st.offset) m.st.world.clock with
      | none => true
      | some cs =>
        match ping_trigger cfg m.st.sensor { m.st.world with clock := cs } with
        | some (true, s2, w5) =>
          match w5.poll cfg.isActive m.first_max_time with
          | some (true, w6) =>
            match micros w6 with
            | none => true
            | some (second_end_time, _) =>
              if subL (subL second_end_time (subL s2.max_time s2.maxEchoTime)) cfg.pingOverhead
                  < THREE_QUARTERS m.first_length then
                decide (m.first_start ≤ second_end_time ∧
                  second_end_time - m.first_start < cfg.UINT)
              else decide (m.st.offset + m.first_length / 2 < cfg.UINT)
          | _ => true
        | _ => true)
  | _ => true

/-- The hits recorded so far are in non-decreasing order and none exceeds `offset`. -/
def HitsOrdered (st : MultiState) : Prop :=
  (st.hit.take st.i).Sorted (· ≤ ·) ∧ ∀ x ∈ st.hit.take st.i, x ≤ st.offset

/-- How a part of `ping_multi` may move the hits and `offset` on: `offset` does not
decrease, and either the hits are left alone or one hit is recorded at index `i`, equal
to the new `offset`. -/
def MultiAdvance (st st1 : MultiState) : Prop :=
  st.offset ≤ st1.offset ∧
  ((st1.i = st.i ∧ st1.hit = st.hit) ∨
   (st1.i = st.i + 1 ∧ st1.hit = st.hit.set st.i st1.offset))

/-- An example trace on which `ping_multi` makes three passes, 30 and 40 milliseconds
apart: in each pass the first echo lasts about 200 microseconds and the second pulse
finds a later echo. -/
def threePasses : World :=
  { echo := [false, true, true, false, false, true, false,
             false, true, false, false, true, false,
             false, true, false, false, true, false],
    clock := [996, 1000, 1100, 1200, 1204, 1220, 1224, 1332,
              31000, 31004, 31204, 31340, 31344, 31348, 31450,
              71000, 71004, 71204, 71452, 71456, 71460, 71569] }

/-- The specification of `ping_threshold` in the words of the spec: it is `ping_multi`
specialised to `maximum_hits = 1` on a buffer holding `NO_ECHO`, and the result is
the echo time stored in `hit[0]` when one hit is reported and `NO_ECHO` when none is. -/
def ping_threshold_spec (cfg : Config) (threshold_distance max_distance : Nat)
    (s : Sensor) (w : World) : Option (Nat × Sensor × World) :=
  match ping_multi cfg [NO_ECHO] 1 threshold_distance max_distance s w with
  | none => none
  | some (n, st) => some (if n = 1 then st.hit.getD 0 0 else NO_ECHO, st.sensor, st.world)


/-! ## Theorems -/

/-! ### Arithmetic and the poll loop -/

theorem ULONG_pos : 0 < ULONG := by unfold ULONG; positivity

theorem addL_lt (a b : Nat) : addL a b < ULONG := Nat.mod_lt _ ULONG_pos

theorem subL_lt (a b : Nat) : subL a b < ULONG := Nat.mod_lt _ ULONG_pos

/-- Adding back what was subtracted reaches at least the original value. -/
theorem le_subL_add (a b : Nat) (ha : a < ULONG) : a ≤ subL a b + b := by
  unfold subL
  have hb : b % ULONG < ULONG := Nat.mod_lt _ ULONG_pos
  have hb' : b % ULONG ≤ b := Nat.mod_le _ _
  rw [Nat.mod_eq_of_lt ha]
  by_cases h : b % ULONG ≤ a
  · have : (a + (ULONG - b % ULONG)) % ULONG = a - b % ULONG := by
      have e : a + (ULONG - b % ULONG) = (a - b % ULONG) + ULONG := by omega
      rw [e, Nat.add_mod_right]
      exact Nat.mod_eq_of_lt (by omega)
    omega
  · rw [Nat.mod_eq_of_lt (by omega)]
    omega

/-- A successful trigger keeps `_maxEchoTime` and stores the echo start plus
`_maxEchoTime` as an `unsigned long`. -/
theorem ping_trigger_true {cfg : Config} {s s1 : Sensor} {w w1 : World}
    (h : ping_trigger cfg s w = some (true, s1, w1)) :
    s1.maxEchoTime = s.maxEchoTime ∧ s1.ping_result = s.ping_result ∧
    ∃ t1, t1 < ULONG ∧ s1.max_time = addL t1 s.maxEchoTime := by
  unfold ping_trigger at h
  split at h
  · simp at h
  · split at h
    · simp at h
    · split at h
      · simp at h
      · dsimp only at h
        split at h
        · simp at h
        · simp at h
        · split at h
          · simp at h
          · rename_i t1 w4 hm
            simp only [Option.some.injEq, Prod.mk.injEq, true_and] at h
            obtain ⟨rfl, rfl⟩ := h
            refine ⟨rfl, rfl, t1, ?_, rfl⟩
            unfold micros at hm
            split at hm
            · simp at hm
            · simp only [Option.some.injEq, Prod.mk.injEq] at hm
              rw [← hm.1]; exact Nat.mod_lt _ ULONG_pos

/-- A poll loop whose condition holds at every reading up to one whose clock reading
is past the deadline is left by its `return`. -/
theorem pollEcho_timeout (cond : Bool → Bool) (deadline : Nat) :
    ∀ (pre : List Nat) (actives es : List Bool) (m : Nat) (cs : List Nat),
      (∀ e ∈ actives, cond e = true) → actives.length = pre.length + 1 →
      deadline < m % ULONG →
      ∃ es1 cs1, pollEcho cond deadline (actives ++ es) (pre ++ m :: cs) = some (false, es1, cs1) := by
  intro pre
  induction pre with
  | nil =>
    intro actives es m cs hact hlen hm
    match actives, hlen with
    | [e], _ =>
      have he : cond e = true := hact e (by simp)
      exact ⟨es, cs, by simp [pollEcho, he, hm]⟩
  | cons c pre ih =>
    intro actives es m cs hact hlen hm
    match actives, hlen with
    | e :: rest, hlen =>
      have he : cond e = true := hact e (by simp)
      by_cases hc : deadline < c % ULONG
      · exact ⟨rest ++ es, pre ++ m :: cs, by simp [pollEcho, he, hc]⟩
      · obtain ⟨es1, cs1, h⟩ := ih rest es m cs (fun x hx => hact x (by simp [hx]))
          (by simpa using hlen) hm
        exact ⟨es1, cs1, by simp [pollEcho, he, hc, h]⟩

theorem World.poll_timeout (w : World) (cond : Bool → Bool) (deadline : Nat)
    (pre : List Nat) (actives es : List Bool) (m : Nat) (cs : List Nat)
    (hecho : w.echo = actives ++ es) (hclock : w.clock = pre ++ m :: cs)
    (hact : ∀ e ∈ actives, cond e = true) (hlen : actives.length = pre.length + 1)
    (hm : deadline < m % ULONG) :
    ∃ w2, w.poll cond deadline = some (false, w2) := by
  obtain ⟨es1, cs1, h⟩ := pollEcho_timeout cond deadline pre actives es m cs hact hlen hm
  exact ⟨{ w with echo := es1, clock := cs1 }, by simp [World.poll, hecho, hclock, h]⟩

theorem ping_of_trigger_false (cfg : Config) (max_distance : Nat) (s s1 : Sensor) (w w1 : World)
   (h : ping_trigger cfg (if max_distance > 0 then set_max_distance cfg max_distance s else s) w
        = some (false, s1, w1)) :
   ping cfg max_distance s w = some (NO_ECHO, s1, w1) := by
  simp only [ping, h]

theorem ping_of_poll_false (cfg : Config) (max_distance : Nat) (s s1 : Sensor) (w w1 w2 : World)
   (h : ping_trigger cfg (if max_distance > 0 then set_max_distance cfg max_distance s else s) w
        = some (true, s1, w1))
   (hp : w1.poll cfg.isActive s1.max_time = some (false, w2)) :
   ping cfg max_distance s w = some (NO_ECHO, s1, w2) := by
  simp only [ping, h, hp]


/-- C1, the code at the failing input: on a non-AVR build an echo that is read
inactive one microsecond after it started is a successful ping, the trigger succeeds
and the wait loop is left before the deadline, yet `ping` returns 0. -/
theorem ping_success_returns_zero :
    ping_trigger arm { maxEchoTime := 28557, max_time := 0 }
        { echo := [false, true, false], clock := [1000, 1200, 1201] }
      = some (true, { maxEchoTime := 28557, max_time := 29757 },
          (triggerPulse arm { echo := [false], clock := [1201] })) ∧
    World.poll (triggerPulse arm { echo := [false], clock := [1201] }) arm.isActive 29757
      = some (true, triggerPulse arm { echo := [], clock := [1201] }) ∧
    ping arm 0 { maxEchoTime := 28557, max_time := 0 }
        { echo := [false, true, false], clock := [1000, 1200, 1201] }
      = some (0, { maxEchoTime := 28557, max_time := 29757 },
          triggerPulse arm { echo := [], clock := [] }) := by
  decide

/-- Away from a rollover of the clock the time-out of `ping` works: for every
`max_distance ≥ 1`, if the trigger of `ping(max_distance)` succeeds and the echo line is
then read active at every poll up to one whose clock reading, as a number, exceeds the
echo start plus the maximum echo time derived from `max_distance`, then
`ping(max_distance)` returns `NO_ECHO`. -/
theorem ping_beyond_max_distance (cfg : Config) (max_distance : Nat) (hmd : 1 ≤ max_distance)
    (s s1 : Sensor) (w w1 : World)
    (htrig : ping_trigger cfg (set_max_distance cfg max_distance s) w = some (true, s1, w1))
    (actives es : List Bool) (pre : List Nat) (m : Nat) (cs : List Nat)
    (hecho : w1.echo = actives ++ es) (hclock : w1.clock = pre ++ m :: cs)
    (hact : ∀ e ∈ actives, cfg.isActive e = true) (hlen : actives.length = pre.length + 1)
    (hlate : subL s1.max_time s1.maxEchoTime
        + (set_max_distance cfg max_distance s).maxEchoTime < m % ULONG) :
    ∃ w2, ping cfg max_distance s w = some (NO_ECHO, s1, w2) := by
  obtain ⟨hkeep, _, t1, _, ht1⟩ := ping_trigger_true htrig
  have hdead : s1.max_time < m % ULONG := by
    have := le_subL_add s1.max_time s1.maxEchoTime (by rw [ht1]; exact addL_lt _ _)
    rw [hkeep] at this hlate
    omega
  obtain ⟨w2, hp⟩ := World.poll_timeout w1 cfg.isActive s1.max_time pre actives es m cs
    hecho hclock hact hlen hdead
  refine ⟨w2, ping_of_poll_false cfg max_distance s s1 w w1 w2 ?_ hp⟩
  rw [if_pos (by omega)]
  exact htrig

/-- The time-out away from a rollover, on the default AVR build with
`max_distance = 100` (a maximum echo time of 5757 microseconds): an echo that starts at
1200 and is still active at 7000. -/
theorem ping_beyond_max_distance_witness :
    ping_trigger avr (set_max_distance avr 100 { maxEchoTime := 28557, max_time := 0 })
        { echo := [false, true, true, true], clock := [1000, 1200, 5000, 7000] }
      = some (true, { maxEchoTime := 5757, max_time := 6957 },
          triggerPulse avr { echo := [true, true], clock := [5000, 7000] }) ∧
    subL 6957 5757 + 5757 < 7000 % ULONG ∧
    ∃ w2, ping avr 100 { maxEchoTime := 28557, max_time := 0 }
        { echo := [false, true, true, true], clock := [1000, 1200, 5000, 7000] }
      = some (NO_ECHO, { maxEchoTime := 5757, max_time := 6957 }, w2) :=
  ⟨by decide, by decide,
   ping_beyond_max_distance avr 100 (by decide) { maxEchoTime := 28557, max_time := 0 }
    { maxEchoTime := 5757, max_time := 6957 }
    { echo := [false, true, true, true], clock := [1000, 1200, 5000, 7000] }
    (triggerPulse avr { echo := [true, true], clock := [5000, 7000] })
    (by decide) [true, true] [] [5000] 7000 [] (by decide) (by decide) (by decide)
    (by decide) (by decide)⟩

/-- C2, the code at the failing input: on the default AVR build `ping(100)` derives a
maximum echo time of 5757 microseconds. The trigger succeeds: the echo line is read
inactive at two polls within the start deadline and then active, the echo starting
5760 microseconds before the clock rolls over, so the deadline `_max_time` is
`2 ^ 32 - 3`. The echo line is read active 4 microseconds before the rollover, 4
microseconds after it and 20000 microseconds after the echo start; the clock readings
of the last two polls, 4 and 14240, are not above the deadline, so the wait loop goes
on. The line is then read inactive and `ping` returns 19999 microseconds, not
`NO_ECHO`, although the echo stayed active for more than the 5757 microseconds derived
from `max_distance`. -/
theorem ping_rollover_misses_timeout :
    (set_max_distance avr 100 { maxEchoTime := 28557, max_time := 0 }).maxEchoTime = 5757 ∧
    ping_trigger avr (set_max_distance avr 100 { maxEchoTime := 28557, max_time := 0 })
        { echo := [false, false, false, true, true, true, true, false],
          clock := [4294955696, 4294958296, 4294960296, 4294961536, 4294967292,
                    4294967300, 4294981536, 4294981540] }
      = some (true, { maxEchoTime := 5757, max_time := 4294967293 },
          triggerPulse avr { echo := [true, true, true, false],
                             clock := [4294967292, 4294967300, 4294981536, 4294981540] }) ∧
    (∀ e ∈ [true, true, true], avr.isActive e = true) ∧
    4294961536 + 5757 < 4294967300 ∧ 4294961536 + 20000 = 4294981536 ∧
    4294967300 % ULONG = 4 ∧ 4294981536 % ULONG = 14240 ∧
    ping avr 100 { maxEchoTime := 28557, max_time := 0 }
        { echo := [false, false, false, true, true, true, true, false],
          clock := [4294955696, 4294958296, 4294960296, 4294961536, 4294967292,
                    4294967300, 4294981536, 4294981540] }
      = some (19999, { maxEchoTime := 5757, max_time := 4294967293 },
          triggerPulse avr { echo := [], clock := [] }) ∧
    19999 ≠ NO_ECHO := by
  decide

/-- C4: `ping` returns `NO_ECHO` whenever `ping_trigger` returns false, and whenever,
after `ping_trigger` returned true, the echo line is read active at every poll up to
one whose clock reading is past the deadline `_max_time` set by the trigger. -/
theorem ping_no_echo (cfg : Config) (max_distance : Nat) (s : Sensor) (w : World) :
    (∀ s1 w1,
      ping_trigger cfg (if max_distance > 0 then set_max_distance cfg max_distance s else s) w
        = some (false, s1, w1) →
      ping cfg max_distance s w = some (NO_ECHO, s1, w1)) ∧
    (∀ s1 w1 (actives es : List Bool) (pre : List Nat) (m : Nat) (cs : List Nat),
      ping_trigger cfg (if max_distance > 0 then set_max_distance cfg max_distance s else s) w
        = some (true, s1, w1) →
      w1.echo = actives ++ es → w1.clock = pre ++ m :: cs →
      (∀ e ∈ actives, cfg.isActive e = true) → actives.length = pre.length + 1 →
      s1.max_time < m % ULONG →
      ∃ w2, ping cfg max_distance s w = some (NO_ECHO, s1, w2)) := by
  refine ⟨fun s1 w1 h => ping_of_trigger_false cfg max_distance s s1 w w1 h, ?_⟩
  intro s1 w1 actives es pre m cs htrig hecho hclock hact hlen hm
  obtain ⟨w2, hp⟩ := World.poll_timeout w1 cfg.isActive s1.max_time pre actives es m cs
    hecho hclock hact hlen hm
  exact ⟨w2, ping_of_poll_false cfg max_distance s s1 w w1 w2 htrig hp⟩

/-- C4 witness: on the default AVR build, a trigger that finds the echo line busy, and
an echo that starts at 1200 and is still active at 40000, past the deadline 29757. -/
theorem ping_no_echo_witness :
    ping avr 0 { maxEchoTime := 28557, max_time := 0 } { echo := [true], clock := [] }
      = some (NO_ECHO, { maxEchoTime := 28557, max_time := 0 },
          triggerPulse avr { echo := [], clock := [] }) ∧
    ∃ w2, ping avr 0 { maxEchoTime := 28557, max_time := 0 }
        { echo := [false, true, true], clock := [1000, 1200, 40000] }
      = some (NO_ECHO, { maxEchoTime := 28557, max_time := 29757 }, w2) :=
  ⟨(ping_no_echo avr 0 { maxEchoTime := 28557, max_time := 0 }
      { echo := [true], clock := [] }).1 _ _ (by decide),
   (ping_no_echo avr 0 { maxEchoTime := 28557, max_time := 0 }
      { echo := [false, true, true], clock := [1000, 1200, 40000] }).2
      { maxEchoTime := 28557, max_time := 29757 }
      (triggerPulse avr { echo := [true], clock := [40000] })
      [true] [] [] 40000 [] (by decide) (by decide) (by decide) (by decide) (by decide)
      (by decide)⟩

/-! ### The median filter -/

/-- The insertion sort loop started at the end of `pre`, followed by the store
`uS[j] = last`: it splits `pre` into `a ++ b`, where every element of `b` is below
`last` and the last element of `a` is not, and leaves `a ++ last :: b`. -/
theorem shiftLoop_spec (last : Nat) (pre : List Nat) :
    ∀ (h : Nat) (suf : List Nat), ∃ a b, pre = a ++ b ∧ (∀ x ∈ b, x < last) ∧
      (∀ x, a.getLast? = some x → last ≤ x) ∧
      (shiftLoop last pre.length (pre ++ h :: suf)).1 = a.length ∧
      (shiftLoop last pre.length (pre ++ h :: suf)).2.set a.length last
        = a ++ last :: (b ++ suf) := by
  induction pre using List.reverseRecOn with
  | nil =>
    intro h suf
    exact ⟨[], [], rfl, by simp, by simp, by simp [shiftLoop], by simp [shiftLoop]⟩
  | append_singleton pre p ih =>
    intro h suf
    have hget : (pre ++ [p] ++ h :: suf).getD pre.length 0 = p := by
      rw [List.append_assoc, List.getD_eq_getElem?_getD,
        List.getElem?_append_right (Nat.le_refl _)]
      simp
    have hlen : (pre ++ [p]).length = pre.length + 1 := by simp
    rw [hlen]
    by_cases hp : p < last
    · have hset : (pre ++ [p] ++ h :: suf).set (pre.length + 1) p = pre ++ p :: (p :: suf) := by
        rw [List.append_assoc, List.set_append_right _ _ (by omega)]
        simp
      obtain ⟨a, b, hab, hb, ha, hj, hres⟩ := ih p (p :: suf)
      refine ⟨a, b ++ [p], by rw [hab]; simp, ?_, ha, ?_, ?_⟩
      · intro x hx
        rcases List.mem_append.1 hx with hx | hx
        · exact hb x hx
        · simp at hx; omega
      · simp only [shiftLoop, hget, hp, if_true, hset]; exact hj
      · simp only [shiftLoop, hget, hp, if_true, hset]; rw [hres]; simp
    · refine ⟨pre ++ [p], [], by simp, by simp, ?_, ?_, ?_⟩
      · intro x hx; simp at hx; omega
      · simp only [shiftLoop, hget, hp, if_false]; simp
      · simp only [shiftLoop, hget, hp, if_false]
        rw [List.set_append_right _ _ (by simp)]
        simp


/-- In a descending list whose last element is at least `last`, every element is. -/
theorem ge_last_of_sorted (a : List Nat) (last : Nat) (hs : a.Sorted (· ≥ ·))
    (ha : ∀ x, a.getLast? = some x → last ≤ x) : ∀ x ∈ a, last ≤ x := by
  rcases List.eq_nil_or_concat a with rfl | ⟨a1, z, rfl⟩
  · simp
  · rw [List.concat_eq_append] at hs ha ⊢
    have hz : last ≤ z := ha z (by simp)
    intro x hx
    rcases List.mem_append.1 hx with hx | hx
    · have := (List.pairwise_append.1 hs).2.2 x hx z (by simp)
      exact le_trans hz this
    · simp at hx; omega

/-- Inserting `last` between the elements at least `last` and those below keeps a
descending list descending. -/
theorem sorted_insert_mid (a b : List Nat) (last : Nat) (hs : (a ++ b).Sorted (· ≥ ·))
    (hb : ∀ x ∈ b, x < last) (ha : ∀ x, a.getLast? = some x → last ≤ x) :
    (a ++ last :: b).Sorted (· ≥ ·) := by
  obtain ⟨hsa, hsb, hab⟩ := List.pairwise_append.1 hs
  have hal := ge_last_of_sorted a last hsa ha
  refine List.pairwise_append.2 ⟨hsa, List.pairwise_cons.2 ⟨fun y hy => le_of_lt (hb y hy), hsb⟩, ?_⟩
  intro x hx y hy
  rcases List.mem_cons.1 hy with rfl | hy
  · exact hal x hx
  · exact hab x hx y hy

theorem validResults_append (log : List (Nat × Nat)) (t last : Nat) :
    validResults (log ++ [(t, last)])
      = if last ≠ NO_ECHO then validResults log ++ [last] else validResults log := by
  unfold validResults
  by_cases h : last = NO_ECHO <;> simp [h, List.filter_append]

/-- Inserting a valid result with the insertion sort loop keeps the first `i + 1`
elements of `uS` equal to the valid results sorted in descending order. -/
theorem insert_take (last i : Nat) (uS valid : List Nat) (hi : i < uS.length)
    (hs : uS.take i = valid.insertionSort (· ≥ ·)) :
    ((if i > 0 then shiftLoop last i uS else (0, uS)).2.set
        (if i > 0 then shiftLoop last i uS else (0, uS)).1 last).take (i + 1)
      = (valid ++ [last]).insertionSort (· ≥ ·) ∧
    ((if i > 0 then shiftLoop last i uS else (0, uS)).2.set
        (if i > 0 then shiftLoop last i uS else (0, uS)).1 last).length = uS.length := by
  have hif : (if i > 0 then shiftLoop last i uS else (0, uS)) = shiftLoop last i uS := by
    by_cases h0 : i > 0
    · simp [h0]
    · have : i = 0 := by omega
      subst this; simp [shiftLoop]
  rw [hif]
  have hsplit : uS = uS.take i ++ (uS[i] :: uS.drop (i + 1)) := by
    rw [← List.drop_eq_getElem_cons hi, List.take_append_drop]
  have hlen : (uS.take i).length = i := by simp; omega
  obtain ⟨a, b, hab, hb, ha, hj, hres⟩ := shiftLoop_spec last (uS.take i) uS[i] (uS.drop (i + 1))
  rw [hlen, ← hsplit] at hj hres
  rw [hj, hres]
  have habl : a.length + b.length = i := by rw [← hlen, hab]; simp
  constructor
  · have htake : (a ++ last :: (b ++ List.drop (i + 1) uS)).take (i + 1) = a ++ last :: b := by
      have e : a ++ last :: (b ++ List.drop (i + 1) uS) = (a ++ last :: b) ++ List.drop (i + 1) uS := by
        simp
      rw [e, List.take_left' (by simp; omega)]
    rw [htake]
    have hsorted : (a ++ b).Sorted (· ≥ ·) := by
      rw [← hab, hs]; exact List.sorted_insertionSort _ _
    apply List.eq_of_perm_of_sorted (r := (· ≥ ·)) _ (sorted_insert_mid a b last hsorted hb ha)
      (List.sorted_insertionSort _ _)
    have h1 : (a ++ last :: b).Perm (last :: (a ++ b)) := List.perm_middle
    have h2 : (a ++ b).Perm valid := by rw [← hab, hs]; exact List.perm_insertionSort _ _
    have h3 : (valid ++ [last]).Perm (last :: valid) := List.perm_append_singleton last valid
    exact (h1.trans (h2.cons last)).trans (h3.symm.trans (List.perm_insertionSort _ _).symm)
  · have : uS.length = i + 1 + (uS.drop (i+1)).length := by simp; omega
    simp; omega


/-- The effect of one pass of the loop of `ping_median` on its local variables. -/
theorem ping_median_body_fields {σ : Type} (env : PingEnv σ) (md : Nat) (st : MedianState σ) :
    ∃ t last,
      (ping_median_body env md st).log = st.log ++ [(t, last)] ∧
      (ping_median_body env md st).i = (if last ≠ NO_ECHO then st.i + 1 else st.i) ∧
      (ping_median_body env md st).it = (if last ≠ NO_ECHO then st.it else st.it - 1) ∧
      (ping_median_body env md st).uS =
        (if last ≠ NO_ECHO then
          (if st.i > 0 then shiftLoop last st.i st.uS else (0, st.uS)).2.set
            (if st.i > 0 then shiftLoop last st.i st.uS else (0, st.uS)).1 last
         else st.uS) := by
  refine ⟨(env.micros st.env).1, (env.ping md (env.micros st.env).2).1, ?_⟩
  unfold ping_median_body
  by_cases h : (env.ping md (env.micros st.env).2).1 = NO_ECHO
  · simp only [h, ne_eq, not_true_eq_false, if_false]
    split_ifs <;> simp
  · simp only [h, ne_eq, not_false_eq_true, if_true]
    split_ifs <;> simp

/-- One pass of the loop keeps the invariant and brings `i` and `it` one step closer. -/
theorem ping_median_body_inv {σ : Type} (env : PingEnv σ) (md it0 : Nat) (st : MedianState σ)
    (hinv : MedianInv it0 st) (hlt : st.i < st.it) :
    MedianInv it0 (ping_median_body env md st) ∧
    (ping_median_body env md st).it - (ping_median_body env md st).i + 1 = st.it - st.i := by
  obtain ⟨h1, h2, h3, h4, h5⟩ := hinv
  obtain ⟨t, last, hlog, hi, hit, hus⟩ := ping_median_body_fields env md st
  unfold MedianInv
  rw [hlog, hi, hit, hus, validResults_append]
  by_cases h : last = NO_ECHO
  · simp only [h, ne_eq, not_true_eq_false, if_false, List.length_append, List.length_singleton]
    refine ⟨⟨by omega, by omega, h3, by omega, h5⟩, by omega⟩
  · simp only [h, ne_eq, not_false_eq_true, if_true, List.length_append, List.length_singleton]
    obtain ⟨ha, hb⟩ := insert_take last st.i st.uS (validResults st.log) (by omega) h5
    refine ⟨⟨by omega, h2, by rw [hb]; exact h3, by omega, ha⟩, by omega⟩

/-- Given at least `it - i` passes, the loop ends with the invariant and `i = it`. -/
theorem ping_median_loop_inv {σ : Type} (env : PingEnv σ) (md it0 : Nat) :
    ∀ (fuel : Nat) (st : MedianState σ), MedianInv it0 st → st.it - st.i ≤ fuel →
      MedianInv it0 (ping_median_loop env md fuel st) ∧
      (ping_median_loop env md fuel st).i = (ping_median_loop env md fuel st).it := by
  intro fuel
  induction fuel with
  | zero =>
    intro st hinv hf
    exact ⟨hinv, by have := hinv.1; simp only [ping_median_loop]; omega⟩
  | succ fuel ih =>
    intro st hinv hf
    by_cases hlt : st.i < st.it
    · obtain ⟨hinv1, hdec⟩ := ping_median_body_inv env md it0 st hinv hlt
      simp only [ping_median_loop, hlt, if_true]
      exact ih _ hinv1 (by omega)
    · simp only [ping_median_loop, hlt, if_false]
      exact ⟨hinv, by have := hinv.1; omega⟩

theorem ping_median_final {σ : Type} (env : PingEnv σ) (it md : Nat) (e : σ) :
    MedianInv it (ping_median env it md e).2 ∧
    (ping_median env it md e).2.i = (ping_median env it md e).2.it := by
  unfold ping_median
  apply ping_median_loop_inv
  · refine ⟨by simp, by simp, by simp, by simp, by simp [validResults]⟩
  · simp

theorem length_validResults (log : List (Nat × Nat)) :
    (validResults log).length
      + ((log.map Prod.snd).filter (fun r => r = NO_ECHO)).length = log.length := by
  unfold validResults
  induction log with
  | nil => simp
  | cons x xs ih =>
    by_cases h : x.2 = NO_ECHO <;> simp [h, List.filter_cons] <;> simp at ih <;> omega

/-- One pass of the loop on a recording platform does on the platform itself what it
does without the record, and the record grows by the result of the ping performed. -/
theorem ping_median_body_forget {σ : Type} (env : PingEnv σ) (md : Nat)
    (st : MedianState (σ × List Nat)) :
    (ping_median_body env.recording md st).forget = ping_median_body env md st.forget ∧
    (ping_median_body env.recording md st).env.2
      = st.env.2 ++ [(env.ping md (env.micros st.env.1).2).1] := by
  unfold ping_median_body MedianState.forget PingEnv.recording
  by_cases h : (env.ping md (env.micros st.env.1).2).1 = NO_ECHO
  · simp only [h, ne_eq, not_true_eq_false, if_false]
    split_ifs <;> simp
  · simp only [h, ne_eq, not_false_eq_true, if_true]
    split_ifs <;> simp

/-- What one pass of the loop does to the counters, in terms of the result of the ping
that the platform performs in it. -/
theorem ping_median_body_counts {σ : Type} (env : PingEnv σ) (md : Nat) (st : MedianState σ) :
    (ping_median_body env md st).log
      = st.log ++ [((env.micros st.env).1, (env.ping md (env.micros st.env).2).1)] ∧
    ((env.ping md (env.micros st.env).2).1 ≠ NO_ECHO →
      (ping_median_body env md st).i = st.i + 1 ∧ (ping_median_body env md st).it = st.it) ∧
    ((env.ping md (env.micros st.env).2).1 = NO_ECHO →
      (ping_median_body env md st).i = st.i ∧
      (ping_median_body env md st).it = st.it - 1) := by
  unfold ping_median_body
  by_cases h : (env.ping md (env.micros st.env).2).1 = NO_ECHO
  · simp only [h, ne_eq, not_true_eq_false, if_false]
    split_ifs <;> simp
  · simp only [h, ne_eq, not_false_eq_true, if_true]
    split_ifs <;> simp

/-- The loop on a recording platform does on the platform itself what it does without
the record, and the record stays equal to the results logged. -/
theorem ping_median_loop_forget {σ : Type} (env : PingEnv σ) (md : Nat) :
    ∀ (fuel : Nat) (st : MedianState (σ × List Nat)),
      (ping_median_loop env.recording md fuel st).forget
        = ping_median_loop env md fuel st.forget ∧
      (st.env.2 = st.log.map Prod.snd →
        (ping_median_loop env.recording md fuel st).env.2
          = (ping_median_loop env.recording md fuel st).log.map Prod.snd) := by
  intro fuel
  induction fuel with
  | zero => intro st; exact ⟨rfl, fun h => h⟩
  | succ fuel ih =>
    intro st
    have hi : st.forget.i = st.i := rfl
    have hit : st.forget.it = st.it := rfl
    by_cases hlt : st.i < st.it
    · obtain ⟨hf, hrec⟩ := ping_median_body_forget env md st
      obtain ⟨h1, h2⟩ := ih (ping_median_body env.recording md st)
      simp only [ping_median_loop, hlt, hi, hit, if_true]
      refine ⟨by rw [h1, hf], fun h => h2 ?_⟩
      have hlog := (ping_median_body_counts env md st.forget).1
      rw [← hf] at hlog
      have hlog2 : (ping_median_body env.recording md st).log
          = (ping_median_body env.recording md st).forget.log := rfl
      rw [hrec, hlog2, hlog, h]
      simp [MedianState.forget]
    · simp only [ping_median_loop, hlt, hi, hit, if_false]
      exact ⟨trivial, fun h => h⟩

/-- The pings recorded by the platform are the pings logged, and recording changes
neither the value returned nor the counters. -/
theorem pingsOf_eq_log {σ : Type} (env : PingEnv σ) (it md : Nat) (e : σ) :
    pingsOf env it md e = (ping_median env it md e).2.log.map Prod.snd := by
  unfold pingsOf ping_median
  obtain ⟨h1, h2⟩ := ping_median_loop_forget env md it
    { uS := (List.replicate it 0).set 0 NO_ECHO, i := 0, it := it, env := (e, []), log := [] }
  simp only
  rw [h2 rfl]
  have : (ping_median_loop env.recording md it
      { uS := (List.replicate it 0).set 0 NO_ECHO, i := 0, it := it, env := (e, []),
        log := [] }).log
      = (ping_median_loop env.recording md it
      { uS := (List.replicate it 0).set 0 NO_ECHO, i := 0, it := it, env := (e, []),
        log := [] }).forget.log := rfl
  rw [this, h1]
  rfl

/-- The valid results logged are the valid ones among the results logged. -/
theorem validResults_eq (log : List (Nat × Nat)) :
    validResults log = validPings (log.map Prod.snd) := rfl

/-- Once its condition is false the loop does nothing, however many passes it is given. -/
theorem ping_median_loop_done {σ : Type} (env : PingEnv σ) (md : Nat) (fuel : Nat)
    (st : MedianState σ) (h : ¬ st.i < st.it) : ping_median_loop env md fuel st = st := by
  cases fuel with
  | zero => rfl
  | succ fuel => simp only [ping_median_loop, h, if_false]

/-- Passes given to the loop one after the other add up. -/
theorem ping_median_loop_add {σ : Type} (env : PingEnv σ) (md : Nat) :
    ∀ (a b : Nat) (st : MedianState σ),
      ping_median_loop env md (a + b) st
        = ping_median_loop env md b (ping_median_loop env md a st) := by
  intro a
  induction a with
  | zero => intro b st; simp [ping_median_loop]
  | succ a ih =>
    intro b st
    rw [show a + 1 + b = (a + b) + 1 by omega]
    by_cases hlt : st.i < st.it
    · simp only [ping_median_loop, hlt, if_true]
      exact ih b _
    · simp only [ping_median_loop, hlt, if_false]
      exact (ping_median_loop_done env md b st hlt).symm


/-- C5: for every platform, sample target and sequence of ping results, whenever at
least one of the pings performed during `ping_median` is valid (non-zero), the value
returned is the element at index `k / 2` of the `k` valid results sorted in descending
order. The ping results are those that the platform recorded when the pings were
performed. -/
theorem ping_median_returns_median {σ : Type} (env : PingEnv σ) (it max_distance : Nat) (e : σ)
    (hk : 1 ≤ (validPings (pingsOf env it max_distance e)).length) :
    ((validPings (pingsOf env it max_distance e)).insertionSort (· ≥ ·))[
        (validPings (pingsOf env it max_distance e)).length / 2]?
      = some (ping_median env it max_distance e).1 := by
  rw [pingsOf_eq_log, ← validResults_eq] at hk ⊢
  obtain ⟨⟨h1, h2, h3, h4, h5⟩, hexit⟩ := ping_median_final env it max_distance e
  have hval : (ping_median env it max_distance e).1
      = (ping_median env it max_distance e).2.uS.getD
          ((ping_median env it max_distance e).2.it >>> 1) 0 := rfl
  have hlen : (validResults (ping_median env it max_distance e).2.log).length
      = (ping_median env it max_distance e).2.i := by
    have := congrArg List.length h5
    rw [List.length_insertionSort, List.length_take] at this
    omega
  rw [hval, ← h5, hlen, ← hexit, Nat.shiftRight_one]
  rw [hlen] at hk
  have hlt : (ping_median env it max_distance e).2.i / 2 < (ping_median env it max_distance e).2.i :=
    Nat.div_lt_self (by omega) (by omega)
  rw [List.getElem?_take_of_lt hlt, List.getD_eq_getElem?_getD]
  have hlt2 : (ping_median env it max_distance e).2.i / 2 < (ping_median env it max_distance e).2.uS.length := by
    omega
  rw [List.getElem?_eq_getElem hlt2]
  simp

/-- C5 witness: on the simulated platform the ping results 300, 0, 400, 100, 200 with
`samples = 5` leave the four valid samples 400, 300, 200, 100 in descending order and
`ping_median` returns the one at index 2, which is 200 (neither the first valid result
nor the third in the order of arrival); and the results 100, 0, 100, 100, 100 leave
four valid samples and `ping_median` returns 100. -/
theorem ping_median_returns_median_witness :
    pingsOf simEnv 5 0
      { now := 0, script := [(500, 300), (40000, 0), (500, 400), (500, 100), (500, 200)] }
        = [300, 0, 400, 100, 200] ∧
    (validPings [300, 0, 400, 100, 200]).insertionSort (· ≥ ·) = [400, 300, 200, 100] ∧
    (ping_median simEnv 5 0
      { now := 0, script := [(500, 300), (40000, 0), (500, 400), (500, 100), (500, 200)] }).1
        = 200 ∧
    ((validPings (pingsOf simEnv 5 0
      { now := 0, script := [(500, 300), (40000, 0), (500, 400), (500, 100), (500, 200)] })
        ).insertionSort (· ≥ ·))[(validPings (pingsOf simEnv 5 0
      { now := 0, script := [(500, 300), (40000, 0), (500, 400), (500, 100), (500, 200)] })
        ).length / 2]?
      = some (ping_median simEnv 5 0
      { now := 0, script := [(500, 300), (40000, 0), (500, 400), (500, 100), (500, 200)] }).1 ∧
    pingsOf simEnv 5 0
      { now := 0, script := [(500, 100), (40000, 0), (500, 100), (500, 100), (500, 100)] }
        = [100, 0, 100, 100, 100] ∧
    ((validPings (pingsOf simEnv 5 0
      { now := 0, script := [(500, 100), (40000, 0), (500, 100), (500, 100), (500, 100)] })
        ).insertionSort (· ≥ ·))[(validPings (pingsOf simEnv 5 0
      { now := 0, script := [(500, 100), (40000, 0), (500, 100), (500, 100), (500, 100)] })
        ).length / 2]?
      = some 100 :=
  ⟨by decide, by decide, by decide,
   ping_median_returns_median simEnv 5 0
     { now := 0, script := [(500, 300), (40000, 0), (500, 400), (500, 100), (500, 200)] }
     (by decide),
   by decide,
   ping_median_returns_median simEnv 5 0
     { now := 0, script := [(500, 100), (40000, 0), (500, 100), (500, 100), (500, 100)] }
     (by decide)⟩

/-- C6: for every platform, sample target `it` and behaviour of the pings, the loop of
`ping_median`, given `it` passes, has ended with its condition `i < it` false, and more
passes change nothing. The platform has then performed exactly `it` pings. In every
pass the platform performs one ping, and the pass increments `i` when the result is
valid and decrements the target when it is not; so the final `i` is the number of valid
pings, the target was decremented once per discarded ping, and valid plus discarded
pings equal the original `it`. -/
theorem ping_median_makes_it_pings {σ : Type} (env : PingEnv σ) (it max_distance : Nat) (e : σ) :
    (pingsOf env it max_distance e).length = it ∧
    ¬ ((ping_median env it max_distance e).2.i < (ping_median env it max_distance e).2.it) ∧
    (∀ extra, ping_median_loop env max_distance (it + extra)
        { uS := (List.replicate it 0).set 0 NO_ECHO, i := 0, it := it, env := e, log := [] }
      = ping_median_loop env max_distance it
        { uS := (List.replicate it 0).set 0 NO_ECHO, i := 0, it := it, env := e, log := [] }) ∧
    (∀ st : MedianState (σ × List Nat),
      (ping_median_body env.recording max_distance st).env.2
        = st.env.2 ++ [(env.ping max_distance (env.micros st.env.1).2).1] ∧
      ((env.ping max_distance (env.micros st.env.1).2).1 ≠ NO_ECHO →
        (ping_median_body env.recording max_distance st).i = st.i + 1 ∧
        (ping_median_body env.recording max_distance st).it = st.it) ∧
      ((env.ping max_distance (env.micros st.env.1).2).1 = NO_ECHO →
        (ping_median_body env.recording max_distance st).i = st.i ∧
        (ping_median_body env.recording max_distance st).it = st.it - 1)) ∧
    (ping_median env it max_distance e).2.i
      = (validPings (pingsOf env it max_distance e)).length ∧
    it - (ping_median env it max_distance e).2.it
      = ((pingsOf env it max_distance e).filter (fun r => r = NO_ECHO)).length ∧
    (validPings (pingsOf env it max_distance e)).length
      + ((pingsOf env it max_distance e).filter (fun r => r = NO_ECHO)).length = it := by
  rw [pingsOf_eq_log, ← validResults_eq]
  obtain ⟨⟨h1, h2, h3, h4, h5⟩, hexit⟩ := ping_median_final env it max_distance e
  have hlen : (validResults (ping_median env it max_distance e).2.log).length
      = (ping_median env it max_distance e).2.i := by
    have := congrArg List.length h5
    rw [List.length_insertionSort, List.length_take] at this
    omega
  have hsum := length_validResults (ping_median env it max_distance e).2.log
  refine ⟨by rw [List.length_map]; omega, by omega, ?_, ?_, hlen.symm, by omega, by omega⟩
  · intro extra
    rw [ping_median_loop_add]
    exact ping_median_loop_done env max_distance extra _ (by
      have : (ping_median env it max_distance e).2
          = ping_median_loop env max_distance it
              { uS := (List.replicate it 0).set 0 NO_ECHO, i := 0, it := it, env := e,
                log := [] } := rfl
      rw [← this]; omega)
  · intro st
    obtain ⟨hf, hrec⟩ := ping_median_body_forget env max_distance st
    obtain ⟨_, hv, hd⟩ := ping_median_body_counts env max_distance st.forget
    rw [← hf] at hv hd
    exact ⟨hrec, hv, hd⟩


/-- C7, the code at the failing input: on the simulated platform, where `delay(n)` waits
`n` milliseconds, with `samples = 2` and a first ping that starts at 1000 and takes 500
microseconds, `ping_median` calls `delay(28)` and the second ping starts at 29500, which
is 28500 microseconds after the first, less than `PING_MEDIAN_DELAY`. -/
theorem ping_median_short_spacing :
    (ping_median simEnv 2 0 { now := 1000, script := [(500, 495), (600, 595)] }).2.log
      = [(1000, 495), (29500, 595)] ∧
    subL (addL PING_MEDIAN_DELAY 1000) 1500 / 1000 = 28 ∧
    29500 < 1000 + PING_MEDIAN_DELAY := by
  decide

/-! ### Multiple echoes -/

theorem pollEcho_echo_le (cond : Bool → Bool) (deadline : Nat) :
    ∀ (es : List Bool) (cs : List Nat) (ok : Bool) (es1 : List Bool) (cs1 : List Nat),
      pollEcho cond deadline es cs = some (ok, es1, cs1) → es1.length < es.length := by
  intro es
  induction es with
  | nil => intro cs ok es1 cs1 h; simp [pollEcho] at h
  | cons e es ih =>
    intro cs ok es1 cs1 h
    unfold pollEcho at h
    split_ifs at h with hc
    · split at h
      · simp at h
      · split_ifs at h
        · simp only [Option.some.injEq, Prod.mk.injEq] at h
          obtain ⟨_, rfl, _⟩ := h
          simp
        · have := ih _ _ _ _ h
          simp only [List.length_cons]; omega
    · simp only [Option.some.injEq, Prod.mk.injEq] at h
      obtain ⟨_, rfl, _⟩ := h
      simp

/-- A poll loop run on a world consumes at least one reading of the echo pin. -/
theorem World.poll_echo_lt {w w1 : World} {cond : Bool → Bool} {deadline : Nat} {ok : Bool}
    (h : w.poll cond deadline = some (ok, w1)) : w1.echo.length < w.echo.length := by
  unfold World.poll at h
  split at h
  · simp at h
  · rename_i ok1 es cs hp
    simp only [Option.some.injEq, Prod.mk.injEq] at h
    obtain ⟨_, rfl⟩ := h
    exact pollEcho_echo_le _ _ _ _ _ _ _ hp

/-- The call `micros()` leaves the readings of the echo pin alone. -/
theorem micros_echo {w w1 : World} {t : Nat} (h : micros w = some (t, w1)) :
    w1.echo.length = w.echo.length := by
  unfold micros at h
  split at h
  · simp at h
  · simp only [Option.some.injEq, Prod.mk.injEq] at h
    obtain ⟨_, rfl⟩ := h
    rfl

/-- The trigger pulse consumes no reading of the echo pin. -/
theorem triggerPulse_echo (cfg : Config) (w : World) : (triggerPulse cfg w).echo = w.echo := by
  unfold triggerPulse World.act
  split_ifs <;> rfl

/-- Every call of `ping_trigger` that returns has read the echo pin at least once. -/
theorem ping_trigger_echo_lt {cfg : Config} {s s1 : Sensor} {w w1 : World} {ok : Bool}
    (h : ping_trigger cfg s w = some (ok, s1, w1)) : w1.echo.length < w.echo.length := by
  unfold ping_trigger at h
  split at h
  · simp at h
  · rename_i e wa hr
    have hra : wa.echo.length < w.echo.length := by
      unfold readEcho at hr
      rw [triggerPulse_echo] at hr
      split at hr
      · simp at hr
      · rename_i e1 es he
        simp only [Option.some.injEq, Prod.mk.injEq] at hr
        obtain ⟨_, rfl⟩ := hr
        simp [he]
    split_ifs at h
    · simp only [Option.some.injEq, Prod.mk.injEq] at h
      obtain ⟨_, _, rfl⟩ := h
      exact hra
    · split at h
      · simp at h
      · rename_i t0 wb hm
        have hb := micros_echo hm
        dsimp only at h
        split at h
        · simp at h
        · rename_i wc hp
          simp only [Option.some.injEq, Prod.mk.injEq] at h
          obtain ⟨_, _, rfl⟩ := h
          have := World.poll_echo_lt hp
          omega
        · rename_i wc hp
          have hc := World.poll_echo_lt hp
          split at h
          · simp at h
          · rename_i t1 wd hm2
            have hd := micros_echo hm2
            simp only [Option.some.injEq, Prod.mk.injEq] at h
            obtain ⟨_, _, rfl⟩ := h
            omega

theorem ping_multi_second_echo_lt {cfg : Config} {maximum_hits fmt fs fl : Nat}
    {st st1 : MultiState}
    (h : ping_multi_second cfg maximum_hits fmt fs fl st = some (MultiStep.again st1)) :
    st1.world.echo.length < st.world.echo.length := by
  unfold ping_multi_second at h
  split at h
  · simp at h
  · split at h
    · simp at h
    · simp at h
    · rename_i s2 w5 ht
      have h5 := ping_trigger_echo_lt ht
      split at h
      · simp at h
      · simp at h
      · rename_i w6 hp
        have h6 := World.poll_echo_lt hp
        split at h
        · simp at h
        · rename_i t w7 hm
          have h7 := micros_echo hm
          dsimp only at h
          simp only at h5
          split_ifs at h
          all_goals (simp only [Option.some.injEq, MultiStep.again.injEq] at h; subst h)
          all_goals (simp only [World.act]; omega)

theorem ping_multi_body_echo_lt {cfg : Config} {maximum_hits threshold_distance : Nat}
    {st st1 : MultiState}
    (h : ping_multi_body cfg maximum_hits threshold_distance st = some (MultiStep.again st1)) :
    st1.world.echo.length < st.world.echo.length := by
  unfold ping_multi_body at h
  split at h
  · simp at h
  · simp at h
  · rename_i s1 w1 ht
    have h1 := ping_trigger_echo_lt ht
    dsimp only at h
    split at h
    · simp at h
    · simp at h
    · rename_i w2 hp
      have h2 := World.poll_echo_lt hp
      split at h
      · simp at h
      · rename_i t w3 hm
        have h3 := micros_echo hm
        split_ifs at h
        · simp at h
        all_goals
          have hsec := ping_multi_second_echo_lt h
          simp only at hsec
          omega

/-- The number of passes given to the outer loop of `ping_multi` is enough: more
passes do not change the result. -/
theorem ping_multi_loop_fuel (cfg : Config) (maximum_hits threshold_distance : Nat) :
    ∀ (fuel : Nat) (st : MultiState), st.world.echo.length ≤ fuel →
      ping_multi_loop cfg maximum_hits threshold_distance (fuel + 1) st
        = ping_multi_loop cfg maximum_hits threshold_distance fuel st := by
  intro fuel
  induction fuel with
  | zero =>
    intro st hlen
    have hnil : st.world.echo = [] := List.length_eq_zero.1 (by omega)
    have hb : ping_multi_body cfg maximum_hits threshold_distance st = none := by
      unfold ping_multi_body ping_trigger readEcho
      rw [triggerPulse_echo, hnil]
    simp only [ping_multi_loop, hb]
  | succ fuel ih =>
    intro st hlen
    rw [ping_multi_loop]
    conv_rhs => rw [ping_multi_loop]
    split_ifs with hlt
    · cases hb : ping_multi_body cfg maximum_hits threshold_distance st with
      | none => rfl
      | some r =>
        cases r with
        | done ret st1 => rfl
        | again st1 =>
          have := ping_multi_body_echo_lt hb
          exact ih st1 (by omega)
    · rfl


theorem MultiFrame.refl (st : MultiState) : MultiFrame st st :=
  ⟨Nat.le_refl _, rfl, fun _ _ => rfl⟩

theorem MultiFrame.trans {a b c : MultiState} (h1 : MultiFrame a b) (h2 : MultiFrame b c) :
    MultiFrame a c := by
  obtain ⟨h1a, h1b, h1c⟩ := h1
  obtain ⟨h2a, h2b, h2c⟩ := h2
  refine ⟨by omega, by omega, fun j hj => ?_⟩
  rw [h2c j (by omega), h1c j (by omega)]

theorem MultiFrame.record (st : MultiState) (v off : Nat) (s : Sensor) (w : World) :
    MultiFrame st { offset := off, i := st.i + 1, hit := st.hit.set st.i v, sensor := s, world := w } := by
  refine ⟨by simp, by simp, fun j hj => ?_⟩
  simp only at hj
  exact List.getElem?_set_ne (by omega)

theorem ping_multi_second_ok (cfg : Config) (maximum_hits fmt fs fl : Nat) (st : MultiState)
    (r : MultiStep) (hlt : st.i < maximum_hits)
    (h : ping_multi_second cfg maximum_hits fmt fs fl st = some r) :
    MultiStepOK maximum_hits st r := by
  unfold ping_multi_second at h
  split at h
  · simp at h
  · split at h
    · simp at h
    · simp only [Option.some.injEq] at h; subst h
      exact ⟨⟨Nat.le_refl _, rfl, fun _ _ => rfl⟩, Nat.le_of_lt hlt, Or.inr ⟨rfl, hlt⟩⟩
    · split at h
      · simp at h
      · simp only [Option.some.injEq] at h; subst h
        exact ⟨⟨Nat.le_refl _, rfl, fun _ _ => rfl⟩, Nat.le_of_lt hlt, Or.inl rfl⟩
      · split at h
        · simp at h
        · dsimp only at h
          split_ifs at h
          all_goals (simp only [Option.some.injEq] at h; subst h)
          all_goals first
            | exact ⟨MultiFrame.record st _ _ _ _, hlt⟩
            | exact ⟨⟨Nat.le_refl _, rfl, fun _ _ => rfl⟩, Nat.le_of_lt hlt⟩


theorem MultiStepOK.of_frame {maximum_hits : Nat} {st st1 : MultiState} {r : MultiStep}
    (hf : MultiFrame st st1) (h : MultiStepOK maximum_hits st1 r) :
    MultiStepOK maximum_hits st r := by
  cases r with
  | done ret st2 => exact ⟨hf.trans h.1, h.2⟩
  | again st2 => exact ⟨hf.trans h.1, h.2⟩

theorem ping_multi_body_ok (cfg : Config) (maximum_hits threshold_distance : Nat)
    (st : MultiState) (r : MultiStep) (hlt : st.i < maximum_hits)
    (h : ping_multi_body cfg maximum_hits threshold_distance st = some r) :
    MultiStepOK maximum_hits st r := by
  unfold ping_multi_body at h
  split at h
  · simp at h
  · simp only [Option.some.injEq] at h; subst h
    exact ⟨⟨Nat.le_refl _, rfl, fun _ _ => rfl⟩, Nat.le_of_lt hlt, Or.inr ⟨rfl, hlt⟩⟩
  · dsimp only at h
    split at h
    · simp at h
    · simp only [Option.some.injEq] at h; subst h
      exact ⟨⟨Nat.le_refl _, rfl, fun _ _ => rfl⟩, Nat.le_of_lt hlt, Or.inl rfl⟩
    · split at h
      · simp at h
      · split_ifs at h with h0 h1 h2
        · simp only [Option.some.injEq] at h; subst h
          exact ⟨MultiFrame.record st _ _ _ _, hlt, Or.inl rfl⟩
        · exact MultiStepOK.of_frame (MultiFrame.record st _ _ _ _)
            (ping_multi_second_ok cfg maximum_hits _ _ _ _ r (by simp only; omega) h)
        · have hok := ping_multi_second_ok cfg maximum_hits _ _ _ _ r (by exact hlt) h
          exact MultiStepOK.of_frame ⟨Nat.le_refl _, rfl, fun _ _ => rfl⟩ hok
        · have hok := ping_multi_second_ok cfg maximum_hits _ _ _ _ r (by exact hlt) h
          exact MultiStepOK.of_frame ⟨Nat.le_refl _, rfl, fun _ _ => rfl⟩ hok

/-- The outer loop of `ping_multi` respects the frame and the hit count. -/
theorem ping_multi_loop_ok (cfg : Config) (maximum_hits threshold_distance : Nat) :
    ∀ (fuel : Nat) (st : MultiState) (ret : Nat) (st1 : MultiState),
      st.i ≤ maximum_hits →
      ping_multi_loop cfg maximum_hits threshold_distance fuel st = some (ret, st1) →
      MultiFrame st st1 ∧ MultiRet maximum_hits ret st1 := by
  intro fuel
  induction fuel with
  | zero =>
    intro st ret st1 hle h
    simp only [ping_multi_loop] at h
    split_ifs at h
    simp only [Option.some.injEq, Prod.mk.injEq] at h
    obtain ⟨rfl, rfl⟩ := h
    exact ⟨MultiFrame.refl _, hle, Or.inl rfl⟩
  | succ fuel ih =>
    intro st ret st1 hle h
    simp only [ping_multi_loop] at h
    split_ifs at h with hlt
    · split at h
      · simp at h
      · rename_i ret2 st2 hb
        simp only [Option.some.injEq, Prod.mk.injEq] at h
        obtain ⟨rfl, rfl⟩ := h
        exact ping_multi_body_ok cfg maximum_hits threshold_distance st _ hlt hb
      · rename_i st2 hb
        have hok := ping_multi_body_ok cfg maximum_hits threshold_distance st _ hlt hb
        obtain ⟨hf, hr⟩ := ih st2 ret st1 hok.2 h
        exact ⟨hok.1.trans hf, hr⟩
    · simp only [Option.some.injEq, Prod.mk.injEq] at h
      obtain ⟨rfl, rfl⟩ := h
      exact ⟨MultiFrame.refl _, hle, Or.inl rfl⟩


/-- What a returning call of `ping_multi` leaves behind, in terms of the final hit
count `st.i`. -/
theorem ping_multi_ok (cfg : Config) (hit : List Nat)
    (maximum_hits threshold_distance max_distance : Nat) (s : Sensor) (w : World)
    (n : Nat) (st : MultiState)
    (h : ping_multi cfg hit maximum_hits threshold_distance max_distance s w = some (n, st)) :
    st.i ≤ maximum_hits ∧ (n = st.i ∨ (n = 0 ∧ st.i < maximum_hits)) ∧
    st.hit.length = hit.length ∧ ∀ j, st.i ≤ j → st.hit[j]? = hit[j]? := by
  unfold ping_multi at h
  obtain ⟨⟨_, hlen, hframe⟩, hle, hret⟩ :=
    ping_multi_loop_ok cfg maximum_hits threshold_distance _ _ n st (Nat.zero_le _) h
  exact ⟨hle, hret, hlen, fun j hj => hframe j (Or.inr hj)⟩

/-- C8, counterexample: with `maximum_hits = 2` the first echo is recorded in `hit[0]`,
then the second trigger finds the echo line still active and `ping_multi` returns 0,
although `hit[0]`, an element outside the indices below the value returned, has
changed from 11 to 205. -/
theorem ping_multi_writes_then_returns_zero :
    (ping_multi avr [11, 22] 2 0 0 { maxEchoTime := 28557, max_time := 0 }
        { echo := [false, true, true, false, true],
          clock := [996, 1000, 1100, 1200, 1204] }).map (fun r => (r.1, r.2.i, r.2.hit))
      = some (0, 1, [205, 22]) ∧
    0 ≤ 0 ∧ [205, 22][0]? ≠ [11, 22][0]? := by
  decide

/-- A pass through the loop body is lines 80 to 96 followed, unless they return, by
lines 98 to 120. -/
theorem ping_multi_body_eq (cfg : Config) (maximum_hits threshold_distance : Nat)
    (st : MultiState) :
    ping_multi_body cfg maximum_hits threshold_distance st =
      match ping_multi_first cfg maximum_hits threshold_distance st with
      | none => none
      | some (MultiFirst.returned ret st1) => some (MultiStep.done ret st1)
      | some (MultiFirst.goesOn m) =>
        ping_multi_second cfg maximum_hits m.first_max_time m.first_start m.first_length m.st := by
  unfold ping_multi_body ping_multi_first
  cases ping_trigger cfg st.sensor st.world with
  | none => rfl
  | some r =>
    obtain ⟨ok, s1, w1⟩ := r
    cases ok with
    | false => rfl
    | true =>
      dsimp only
      cases w1.poll cfg.isActive s1.max_time with
      | none => rfl
      | some r2 =>
        obtain ⟨ok2, w2⟩ := r2
        cases ok2 with
        | false => rfl
        | true =>
          dsimp only
          cases micros w2 with
          | none => rfl
          | some r3 =>
            obtain ⟨t, w3⟩ := r3
            dsimp only
            split_ifs <;> rfl

/-- A `return` in lines 80 to 96 returns the hit count, except the one after a failed
trigger, which returns 0. -/
theorem ping_multi_first_returned {cfg : Config} {maximum_hits threshold_distance : Nat}
    {st st1 : MultiState} {ret : Nat}
    (h : ping_multi_first cfg maximum_hits threshold_distance st
      = some (MultiFirst.returned ret st1)) :
    ret = st1.i ∨ (ret = 0 ∧ ∃ s1 w1, ping_trigger cfg st.sensor st.world = some (false, s1, w1) ∧
      st1 = { st with sensor := s1, world := w1 }) := by
  unfold ping_multi_first at h
  cases ht : ping_trigger cfg st.sensor st.world with
  | none => simp [ht] at h
  | some r =>
    obtain ⟨ok, s1, w1⟩ := r
    cases ok with
    | false =>
      simp only [ht, Option.some.injEq, MultiFirst.returned.injEq] at h
      exact Or.inr ⟨h.1.symm, s1, w1, rfl, h.2.symm⟩
    | true =>
      simp only [ht] at h
      cases hp : w1.poll cfg.isActive s1.max_time with
      | none => simp [hp] at h
      | some r2 =>
        obtain ⟨ok2, w2⟩ := r2
        cases ok2 with
        | false =>
          simp only [hp, Option.some.injEq, MultiFirst.returned.injEq] at h
          left; rw [← h.1, ← h.2]
        | true =>
          simp only [hp] at h
          cases hm : micros w2 with
          | none => simp [hm] at h
          | some r3 =>
            obtain ⟨t, w3⟩ := r3
            simp only [hm] at h
            split_ifs at h
            · simp only [Option.some.injEq, MultiFirst.returned.injEq] at h
              left; rw [← h.1, ← h.2]
            all_goals simp at h

/-- A `return` in lines 98 to 120 returns the hit count, except the one after a failed
trigger, which returns 0. -/
theorem ping_multi_second_returned {cfg : Config} {maximum_hits fmt fs fl : Nat}
    {st st1 : MultiState} {ret : Nat}
    (h : ping_multi_second cfg maximum_hits fmt fs fl st = some (MultiStep.done ret st1)) :
    ret = st1.i ∨ (ret = 0 ∧ ∃ cs s2 w5, spinUntil (addL fs st.offset) st.world.clock = some cs ∧
      ping_trigger cfg st.sensor { st.world with clock := cs } = some (false, s2, w5) ∧
      st1 = { st with sensor := s2, world := w5 }) := by
  unfold ping_multi_second at h
  cases hs : spinUntil (addL fs st.offset) st.world.clock with
  | none => simp [hs] at h
  | some cs =>
    simp only [hs] at h
    cases ht : ping_trigger cfg st.sensor { st.world with clock := cs } with
    | none => simp [ht] at h
    | some r =>
      obtain ⟨ok, s2, w5⟩ := r
      cases ok with
      | false =>
        simp only [ht, Option.some.injEq, MultiStep.done.injEq] at h
        exact Or.inr ⟨h.1.symm, cs, s2, w5, rfl, ht, h.2.symm⟩
      | true =>
        simp only [ht] at h
        cases hp : w5.poll cfg.isActive fmt with
        | none => simp [hp] at h
        | some r2 =>
          obtain ⟨ok2, w6⟩ := r2
          cases ok2 with
          | false =>
            simp only [hp, Option.some.injEq, MultiStep.done.injEq] at h
            left; rw [← h.1, ← h.2]
          | true =>
            simp only [hp] at h
            cases hm : micros w6 with
            | none => simp [hm] at h
            | some r3 =>
              obtain ⟨t, w7⟩ := r3
              simp only [hm] at h
              split_ifs at h <;> simp at h

/-- A pass that ends by a `return` returns the hit count, except after a failed
trigger, where it returns 0. -/
theorem ping_multi_body_returned {cfg : Config} {maximum_hits threshold_distance : Nat}
    {stk stf : MultiState} {ret : Nat}
    (h : ping_multi_body cfg maximum_hits threshold_distance stk = some (MultiStep.done ret stf)) :
    ret = stf.i ∨ (ret = 0 ∧ TriggerFailed cfg maximum_hits threshold_distance stk stf) := by
  rw [ping_multi_body_eq] at h
  cases hf : ping_multi_first cfg maximum_hits threshold_distance stk with
  | none => simp [hf] at h
  | some r =>
    cases r with
    | returned ret1 st1 =>
      simp only [hf, Option.some.injEq, MultiStep.done.injEq] at h
      obtain ⟨rfl, rfl⟩ := h
      rcases ping_multi_first_returned hf with h1 | ⟨h1, s1, w1, h2, h3⟩
      · exact Or.inl h1
      · exact Or.inr ⟨h1, Or.inl ⟨s1, w1, h2, h3⟩⟩
    | goesOn m =>
      simp only [hf] at h
      rcases ping_multi_second_returned h with h1 | ⟨h1, cs, s2, w5, h2, h3, h4⟩
      · exact Or.inl h1
      · exact Or.inr ⟨h1, Or.inr ⟨m, cs, s2, w5, hf, h2, h3, h4⟩⟩

/-- A pass in which a trigger failed ends by `return 0`. -/
theorem ping_multi_body_of_failed {cfg : Config} {maximum_hits threshold_distance : Nat}
    {stk stf : MultiState}
    (h : TriggerFailed cfg maximum_hits threshold_distance stk stf) :
    ping_multi_body cfg maximum_hits threshold_distance stk = some (MultiStep.done 0 stf) := by
  rcases h with ⟨s1, w1, h1, rfl⟩ | ⟨m, cs, s2, w5, h1, h2, h3, rfl⟩
  · simp only [ping_multi_body, h1]
  · rw [ping_multi_body_eq, h1]
    simp only [ping_multi_second, h2, h3]

/-- The value returned by the loop is the hit count, or was returned by one of the
passes. -/
theorem ping_multi_loop_returned (cfg : Config) (maximum_hits threshold_distance : Nat) :
    ∀ (fuel : Nat) (st : MultiState) (n : Nat) (stf : MultiState),
      ping_multi_loop cfg maximum_hits threshold_distance fuel st = some (n, stf) →
      n = stf.i ∨ ∃ stk ∈ ping_multi_passes cfg maximum_hits threshold_distance fuel st,
        ping_multi_body cfg maximum_hits threshold_distance stk = some (MultiStep.done n stf) := by
  intro fuel
  induction fuel with
  | zero =>
    intro st n stf h
    simp only [ping_multi_loop] at h
    split_ifs at h
    simp only [Option.some.injEq, Prod.mk.injEq] at h
    left; rw [← h.1, ← h.2]
  | succ fuel ih =>
    intro st n stf h
    simp only [ping_multi_loop] at h
    by_cases hlt : st.i < maximum_hits
    · simp only [hlt, if_true] at h
      cases hb : ping_multi_body cfg maximum_hits threshold_distance st with
      | none => simp [hb] at h
      | some r =>
        cases r with
        | done ret st1 =>
          simp only [hb, Option.some.injEq, Prod.mk.injEq] at h
          obtain ⟨rfl, rfl⟩ := h
          exact Or.inr ⟨st, by simp [ping_multi_passes, hlt], hb⟩
        | again st1 =>
          simp only [hb] at h
          rcases ih st1 n stf h with h1 | ⟨stk, hmem, hk⟩
          · exact Or.inl h1
          · exact Or.inr ⟨stk, by simp [ping_multi_passes, hlt, hb, hmem], hk⟩
    · simp only [hlt, if_false, Option.some.injEq, Prod.mk.injEq] at h
      left; rw [← h.1, ← h.2]

/-- A `return` executed in one of the passes of the loop is the result of the loop. -/
theorem ping_multi_loop_of_pass (cfg : Config) (maximum_hits threshold_distance : Nat) :
    ∀ (fuel : Nat) (st stk : MultiState) (r : Nat) (stf : MultiState),
      stk ∈ ping_multi_passes cfg maximum_hits threshold_distance fuel st →
      ping_multi_body cfg maximum_hits threshold_distance stk = some (MultiStep.done r stf) →
      ping_multi_loop cfg maximum_hits threshold_distance fuel st = some (r, stf) := by
  intro fuel
  induction fuel with
  | zero => intro st stk r stf hmem; simp [ping_multi_passes] at hmem
  | succ fuel ih =>
    intro st stk r stf hmem hk
    simp only [ping_multi_passes] at hmem
    by_cases hlt : st.i < maximum_hits
    · simp only [hlt, if_true, List.mem_cons] at hmem
      simp only [ping_multi_loop, hlt, if_true]
      rcases hmem with rfl | hmem
      · rw [hk]
      · cases hb : ping_multi_body cfg maximum_hits threshold_distance st with
        | none => simp [hb] at hmem
        | some r1 =>
          cases r1 with
          | done ret st1 => simp [hb] at hmem
          | again st1 =>
            simp only [hb] at hmem
            exact ih st1 stk r stf hmem hk
    · simp [hlt] at hmem

/-- Every pass of the loop starts with fewer than `maximum_hits` hits recorded. -/
theorem ping_multi_passes_lt (cfg : Config) (maximum_hits threshold_distance : Nat) :
    ∀ (fuel : Nat) (st stk : MultiState),
      stk ∈ ping_multi_passes cfg maximum_hits threshold_distance fuel st →
      stk.i < maximum_hits := by
  intro fuel
  induction fuel with
  | zero => intro st stk hmem; simp [ping_multi_passes] at hmem
  | succ fuel ih =>
    intro st stk hmem
    simp only [ping_multi_passes] at hmem
    by_cases hlt : st.i < maximum_hits
    · simp only [hlt, if_true, List.mem_cons] at hmem
      rcases hmem with rfl | hmem
      · exact hlt
      · cases hb : ping_multi_body cfg maximum_hits threshold_distance st with
        | none => simp [hb] at hmem
        | some r1 =>
          cases r1 with
          | done ret st1 => simp [hb] at hmem
          | again st1 =>
            simp only [hb] at hmem
            exact ih st1 stk hmem
    · simp [hlt] at hmem

/-- C8, amended: when `ping_multi` returns `n` having recorded `st.i` hits, then
`n ≤ maximum_hits`, `st.i ≤ maximum_hits`, the buffer keeps its length and every element
at an index `st.i` or above is unchanged. The value returned is the number of hits
recorded, except when a trigger failed: either `n = st.i`, or `n = 0`, fewer than
`maximum_hits` hits are recorded and in one of the passes of the call `ping_trigger`
returned false and the call ended there; and whenever `ping_trigger` returns false in a
pass of the call, the call ends there with `n = 0` and fewer than `maximum_hits` hits
recorded. -/
theorem ping_multi_frame (cfg : Config) (hit : List Nat)
    (maximum_hits threshold_distance max_distance : Nat) (s : Sensor) (w : World)
    (n : Nat) (st : MultiState)
    (h : ping_multi cfg hit maximum_hits threshold_distance max_distance s w = some (n, st)) :
    n ≤ maximum_hits ∧ st.i ≤ maximum_hits ∧
    st.hit.length = hit.length ∧ (∀ j, st.i ≤ j → st.hit[j]? = hit[j]?) ∧
    (n = st.i ∨ (n = 0 ∧ st.i < maximum_hits ∧
      ∃ stk ∈ ping_multi_starts cfg hit maximum_hits threshold_distance max_distance s w,
        TriggerFailed cfg maximum_hits threshold_distance stk st)) ∧
    (∀ stk ∈ ping_multi_starts cfg hit maximum_hits threshold_distance max_distance s w,
      ∀ stf, TriggerFailed cfg maximum_hits threshold_distance stk stf →
        n = 0 ∧ st.i < maximum_hits ∧ stf = st) := by
  obtain ⟨hle, hret, hlen, hframe⟩ :=
    ping_multi_ok cfg hit maximum_hits threshold_distance max_distance s w n st h
  have hn : n ≤ maximum_hits := by rcases hret with h1 | ⟨h1, _⟩ <;> omega
  unfold ping_multi at h
  unfold ping_multi_starts
  refine ⟨hn, hle, hlen, hframe, ?_, ?_⟩
  · by_cases hni : n = st.i
    · exact Or.inl hni
    · have hn0 : n = 0 ∧ st.i < maximum_hits := by rcases hret with h1 | h1 <;> [omega; exact h1]
      rcases ping_multi_loop_returned cfg maximum_hits threshold_distance _ _ n st h with
        h1 | ⟨stk, hmem, hk⟩
      · exact absurd h1 hni
      · rcases ping_multi_body_returned hk with h1 | ⟨_, htf⟩
        · exact absurd h1 hni
        · exact Or.inr ⟨hn0.1, hn0.2, stk, hmem, htf⟩
  · intro stk hmem stf htf
    have hk := ping_multi_body_of_failed htf
    have hloop := ping_multi_loop_of_pass cfg maximum_hits threshold_distance _ _ stk 0 stf hmem hk
    rw [hloop] at h
    simp only [Option.some.injEq, Prod.mk.injEq] at h
    obtain ⟨rfl, rfl⟩ := h
    have hlt := ping_multi_passes_lt cfg maximum_hits threshold_distance _ _ stk hmem
    refine ⟨rfl, ?_, rfl⟩
    rcases hret with h1 | ⟨_, h1⟩
    · omega
    · exact h1

/-- C8 witness: with `maximum_hits = 2` the first echo is recorded in `hit[0]`. When
the second trigger then finds the echo line still active, the call returns 0 with one
hit recorded, the element at index 1 is unchanged, and a trigger failed in a pass of
the call. When instead the second trigger succeeds and its echo is still active past
the deadline of the first pulse, the call returns 1, the number of hits recorded. -/
theorem ping_multi_frame_witness :
    ping_multi avr [11, 22] 2 0 0 { maxEchoTime := 28557, max_time := 0 }
        { echo := [false, true, true, false, true], clock := [996, 1000, 1100, 1200, 1204] }
      = some (0, { offset := 205, i := 1, hit := [205, 22],
                   sensor := { maxEchoTime := 28557, max_time := 29557 },
                   world := triggerPulse avr (triggerPulse avr { echo := [], clock := [] }) }) ∧
    (0 ≤ 2 ∧ 1 ≤ 2 ∧ [205, 22].length = [11, 22].length ∧
      (∀ j, 1 ≤ j → [205, 22][j]? = [11, 22][j]?) ∧
      (0 = 1 ∨ (0 = 0 ∧ 1 < 2 ∧
        ∃ stk ∈ ping_multi_starts avr [11, 22] 2 0 0 { maxEchoTime := 28557, max_time := 0 }
            { echo := [false, true, true, false, true],
              clock := [996, 1000, 1100, 1200, 1204] },
          TriggerFailed avr 2 0 stk
            { offset := 205, i := 1, hit := [205, 22],
              sensor := { maxEchoTime := 28557, max_time := 29557 },
              world := triggerPulse avr (triggerPulse avr { echo := [], clock := [] }) })) ∧
      (∀ stk ∈ ping_multi_starts avr [11, 22] 2 0 0 { maxEchoTime := 28557, max_time := 0 }
            { echo := [false, true, true, false, true],
              clock := [996, 1000, 1100, 1200, 1204] },
        ∀ stf, TriggerFailed avr 2 0 stk stf → 0 = 0 ∧ 1 < 2 ∧
          stf = { offset := 205, i := 1, hit := [205, 22],
                  sensor := { maxEchoTime := 28557, max_time := 29557 },
                  world := triggerPulse avr (triggerPulse avr { echo := [], clock := [] }) })) ∧
    ping_multi avr [11, 22] 2 0 0 { maxEchoTime := 28557, max_time := 0 }
        { echo := [false, true, true, false, false, true, true],
          clock := [996, 1000, 1100, 1200, 1204, 1220, 1224, 40000] }
      = some (1, { offset := 205, i := 1, hit := [205, 22],
                   sensor := { maxEchoTime := 28557, max_time := 29781 },
                   world := triggerPulse avr (triggerPulse avr { echo := [], clock := [] }) }) ∧
    (1 ≤ 2 ∧ [205, 22].length = [11, 22].length ∧
      ∀ j, 1 ≤ j → [205, 22][j]? = [11, 22][j]?) :=
  ⟨by decide,
   ping_multi_frame avr [11, 22] 2 0 0 { maxEchoTime := 28557, max_time := 0 }
    { echo := [false, true, true, false, true], clock := [996, 1000, 1100, 1200, 1204] }
    0 { offset := 205, i := 1, hit := [205, 22],
        sensor := { maxEchoTime := 28557, max_time := 29557 },
        world := triggerPulse avr (triggerPulse avr { echo := [], clock := [] }) }
    (by decide),
   by decide,
   have h := ping_multi_frame avr [11, 22] 2 0 0 { maxEchoTime := 28557, max_time := 0 }
    { echo := [false, true, true, false, false, true, true],
      clock := [996, 1000, 1100, 1200, 1204, 1220, 1224, 40000] }
    1 { offset := 205, i := 1, hit := [205, 22],
        sensor := { maxEchoTime := 28557, max_time := 29781 },
        world := triggerPulse avr (triggerPulse avr { echo := [], clock := [] }) }
    (by decide)
   ⟨h.1, h.2.2.1, h.2.2.2.1⟩⟩

/-- C9, the code at the failing input: the first pulse's echo starts at 1000 and ends at
1200, the second pulse's echo ends at 1332 and is accepted as a new hit. The value
stored in `hit[1]` and in `offset` is `1332 - (1000 - 5) = 337`, the elapsed time
since the first pulse plus `PING_OVERHEAD`, not `1332 - 1000 - 5 = 327`. -/
theorem ping_multi_second_hit_adds_overhead :
    (ping_multi avr [0, 0] 2 0 0 { maxEchoTime := 28557, max_time := 0 }
        { echo := [false, true, true, false, false, true, false],
          clock := [996, 1000, 1100, 1200, 1204, 1220, 1224, 1332] }).map
        (fun r => (r.1, r.2.hit, r.2.offset))
      = some (2, [205, 337], 337) ∧
    (ping_trigger avr { maxEchoTime := 28557, max_time := 0 }
        { echo := [false, true, true, false, false, true, false],
          clock := [996, 1000, 1100, 1200, 1204, 1220, 1224, 1332] }).map
        (fun r => (r.1, subL r.2.1.max_time r.2.1.maxEchoTime))
      = some (true, 1000) ∧
    subL (subL 1332 1000) avr.pingOverhead = 327 := by
  decide

/-- C10: for every platform trace `ping_threshold` returns what the specification
built from `ping_multi` with `maximum_hits = 1` returns, namely `hit[0]` when
`ping_multi` reports one hit and `NO_ECHO` when it reports none; `ping_multi` reports
no other count. -/
theorem ping_threshold_refines (cfg : Config) (threshold_distance max_distance : Nat)
    (s : Sensor) (w : World) :
    ping_threshold cfg threshold_distance max_distance s w
      = ping_threshold_spec cfg threshold_distance max_distance s w ∧
    ∀ n st, ping_multi cfg [NO_ECHO] 1 threshold_distance max_distance s w = some (n, st) →
      n = 0 ∨ n = 1 := by
  unfold ping_threshold ping_threshold_spec
  cases hm : ping_multi cfg [NO_ECHO] 1 threshold_distance max_distance s w with
  | none => simp
  | some r =>
    obtain ⟨n, st⟩ := r
    obtain ⟨hi, hret, hlen, hframe⟩ :=
      ping_multi_ok cfg [NO_ECHO] 1 threshold_distance max_distance s w n st hm
    refine ⟨?_, ?_⟩
    · by_cases h1 : n = 1
      · simp [h1]
      · have hi0 : st.i = 0 := by rcases hret with h | ⟨_, h⟩ <;> omega
        have h0 := hframe 0 (by omega)
        simp only [h1, if_false]
        rw [List.getD_eq_getElem?_getD, h0]
        rfl
    · intro n1 st1 h
      simp only [Option.some.injEq, Prod.mk.injEq] at h
      omega

/-! ### Conversion to length units -/

/-- Without rounding `convert_length` is the truncating division. -/
theorem convert_length_truncating (cfg : Config) (hr : cfg.roundingEnabled = false)
    (echoTime : Nat) (he : echoTime < cfg.UINT) :
    convert_length cfg echoTime = echoTime / cfg.usRoundtripLength := by
  simp only [convert_length, hr, Config.toUInt, if_true, Nat.mod_eq_of_lt he]

/-- With rounding, as long as `echoTime + US_ROUNDTRIP_LENGTH / 2` is still an
`unsigned int`, `convert_length` is the rounded quotient, raised to 1 for a nonzero
`echoTime`. -/
theorem convert_length_rounding (cfg : Config) (hr : cfg.roundingEnabled = true)
    (echoTime : Nat) (he : echoTime + cfg.usRoundtripLength / 2 < cfg.UINT) :
    convert_length cfg echoTime
      = max ((echoTime + cfg.usRoundtripLength / 2) / cfg.usRoundtripLength)
          (if echoTime ≠ 0 then 1 else 0) := by
  have he' : echoTime < cfg.UINT := by omega
  simp only [convert_length, hr, Config.toUInt, Nat.mod_eq_of_lt he', Nat.mod_eq_of_lt he]
  simp

/-- The rounded quotient is an integer nearest to `echoTime / US_ROUNDTRIP_LENGTH`. -/
theorem rounded_quotient_nearest (rt e : Nat) (hrt : 0 < rt) :
    2 * ((e + rt / 2) / rt * rt - e) ≤ rt ∧ 2 * (e - (e + rt / 2) / rt * rt) ≤ rt := by
  have h1 := Nat.div_add_mod (e + rt / 2) rt
  have h2 := Nat.mod_lt (e + rt / 2) hrt
  have h3 : rt * ((e + rt / 2) / rt) = (e + rt / 2) / rt * rt := Nat.mul_comm _ _
  constructor <;> omega

/-- Without rounding `convert_length` is monotonic on `unsigned int` values. -/
theorem convert_length_mono_truncating (cfg : Config) (hr : cfg.roundingEnabled = false)
    (a b : Nat) (hab : a ≤ b) (hb : b < cfg.UINT) :
    convert_length cfg a ≤ convert_length cfg b := by
  rw [convert_length_truncating cfg hr a (by omega), convert_length_truncating cfg hr b hb]
  exact Nat.div_le_div_right hab

/-- With rounding `convert_length` is monotonic below the values whose rounding
addition wraps. -/
theorem convert_length_mono_rounding (cfg : Config) (hr : cfg.roundingEnabled = true)
    (a b : Nat) (hab : a ≤ b) (hb : b + cfg.usRoundtripLength / 2 < cfg.UINT) :
    convert_length cfg a ≤ convert_length cfg b := by
  rw [convert_length_rounding cfg hr a (by omega), convert_length_rounding cfg hr b hb]
  have hdiv : (a + cfg.usRoundtripLength / 2) / cfg.usRoundtripLength
      ≤ (b + cfg.usRoundtripLength / 2) / cfg.usRoundtripLength :=
    Nat.div_le_div_right (by omega)
  exact max_le_max hdiv (by split_ifs <;> omega)

/-- In every build `convert_length` maps 0 to 0. -/
theorem convert_length_zero (cfg : Config) : convert_length cfg 0 = 0 := by
  unfold convert_length Config.toUInt
  split
  · simp
  · have h1 : (0 % cfg.UINT + cfg.usRoundtripLength / 2) % cfg.UINT ≤ cfg.usRoundtripLength / 2 := by
      simp only [Nat.zero_mod, Nat.zero_add]
      exact Nat.mod_le _ _
    have h2 : (0 % cfg.UINT + cfg.usRoundtripLength / 2) % cfg.UINT / cfg.usRoundtripLength = 0 := by
      rcases Nat.eq_zero_or_pos cfg.usRoundtripLength with h0 | hpos
      · rw [h0]; simp
      · exact Nat.div_eq_of_lt (by omega)
    rw [h2]; simp

/-- C11, the code at the failing input: with rounding enabled on the AVR build,
`convert_length 65000 = 1140` but `convert_length 65535 = 1`, because
`65535 + 28` wraps around as an `unsigned int`. -/
theorem convert_length_not_monotone :
    (65000 : Nat) ≤ 65535 ∧ 65535 < avrRounding.UINT ∧
    convert_length avrRounding 65000 = 1140 ∧ convert_length avrRounding 65535 = 1 ∧
    ¬ (convert_length avrRounding 65000 ≤ convert_length avrRounding 65535) := by
  decide

/-- C12, the code at the failing input: with rounding enabled on the AVR build
`convert_length 65535 = 1`, while the integer nearest to `65535 / 57` is 1150. -/
theorem convert_length_not_nearest :
    65535 < avrRounding.UINT ∧ convert_length avrRounding 65535 = 1 ∧
    2 * (1150 * avrRounding.usRoundtripLength - 65535) ≤ avrRounding.usRoundtripLength ∧
    2 * (65535 - 1150 * avrRounding.usRoundtripLength) ≤ avrRounding.usRoundtripLength ∧
    ¬ (2 * (65535 - convert_length avrRounding 65535 * avrRounding.usRoundtripLength)
        ≤ avrRounding.usRoundtripLength) := by
  decide

/-! ### The millisecond timer -/

/-- Division and remainder by `k + 1` when the successor completes a multiple. -/
theorem succ_div_mod_wrap (k n : Nat) (hz : n % (k + 1) = k) :
    (n + 1) / (k + 1) = n / (k + 1) + 1 ∧ (n + 1) % (k + 1) = 0 := by
  have hdm := Nat.div_add_mod n (k + 1)
  have hn : n + 1 = (k + 1) * (n / (k + 1) + 1) := by
    rw [Nat.mul_add, Nat.mul_one]; omega
  constructor
  · conv_lhs => rw [hn]
    exact Nat.mul_div_cancel_left _ (by omega)
  · conv_lhs => rw [hn]
    exact Nat.mul_mod_right _ _

/-- Division and remainder by `k + 1` when the successor stays below the next
multiple. -/
theorem succ_div_mod_step (k n : Nat) (hz : n % (k + 1) ≠ k) :
    (n + 1) / (k + 1) = n / (k + 1) ∧ (n + 1) % (k + 1) = n % (k + 1) + 1 := by
  have hdm := Nat.div_add_mod n (k + 1)
  have hr : n % (k + 1) < k + 1 := Nat.mod_lt _ (by omega)
  have hn : n + 1 = (k + 1) * (n / (k + 1)) + (n % (k + 1) + 1) := by omega
  constructor
  · conv_lhs => rw [hn]
    rw [Nat.mul_add_div (by omega : 0 < k + 1),
      Nat.div_eq_of_lt (by omega : n % (k + 1) + 1 < k + 1)]
    rfl
  · conv_lhs => rw [hn]
    rw [Nat.mul_add_mod, Nat.mod_eq_of_lt (by omega)]

/-- Decrementing a nonzero `unsigned long`. -/
theorem subL_one (a : Nat) (ha : a < ULONG) (hpos : 0 < a) : subL a 1 = a - 1 := by
  unfold subL
  have hU : (1 : Nat) % ULONG = 1 := Nat.mod_eq_of_lt (by unfold ULONG; decide)
  rw [hU, Nat.mod_eq_of_lt ha]
  have e : a + (ULONG - 1) = (a - 1) + ULONG := by
    have : 0 < ULONG := ULONG_pos
    omega
  rw [e, Nat.add_mod_right]
  exact Nat.mod_eq_of_lt (by omega)

/-- The counters after `n` invocations of `timer_ms_cntdwn`: the countdown has period
`frequency + 1`. -/
theorem timerAfter_eq (frequency : Nat) (hf : frequency < ULONG) (n : Nat) :
    timerAfter frequency n =
      { ms_cnt := frequency - n % (frequency + 1), ms_cnt_reset := frequency,
        calls := n / (frequency + 1) } := by
  induction n with
  | zero => simp [timerAfter, timer_ms, Nat.mod_eq_of_lt hf]
  | succ n ih =>
    have hr : n % (frequency + 1) < frequency + 1 := Nat.mod_lt _ (by omega)
    rw [timerAfter, ih, timer_ms_cntdwn]
    by_cases hz : n % (frequency + 1) = frequency
    · obtain ⟨hdiv, hmod⟩ := succ_div_mod_wrap frequency n hz
      simp only [hz, Nat.sub_self, if_true, hdiv, hmod, Nat.sub_zero]
    · obtain ⟨hdiv, hmod⟩ := succ_div_mod_step frequency n hz
      have hne : frequency - n % (frequency + 1) ≠ 0 := by omega
      have hsub := subL_one (frequency - n % (frequency + 1)) (by omega) (by omega)
      simp only [hne, if_false, hsub, hdiv, hmod]
      congr 1

/-- The user's function is called exactly on the invocations whose number is a
multiple of `frequency + 1`. -/
theorem userCalledAt_iff (frequency : Nat) (hf : frequency < ULONG) (n : Nat) (hn : 1 ≤ n) :
    userCalledAt frequency n = true ↔ (frequency + 1) ∣ n := by
  obtain ⟨m, rfl⟩ : ∃ m, n = m + 1 := ⟨n - 1, by omega⟩
  unfold userCalledAt
  rw [timerAfter_eq frequency hf, timerAfter_eq frequency hf]
  simp only [Nat.add_sub_cancel, decide_eq_true_eq, ne_eq]
  by_cases hz : m % (frequency + 1) = frequency
  · obtain ⟨hdiv, hmod⟩ := succ_div_mod_wrap frequency m hz
    constructor
    · intro _; exact Nat.dvd_of_mod_eq_zero hmod
    · intro _; omega
  · obtain ⟨hdiv, hmod⟩ := succ_div_mod_step frequency m hz
    constructor
    · intro h; omega
    · intro h
      have := Nat.mod_eq_zero_of_dvd h
      omega

/-- C13, the code at the failing input: after `timer_ms(1, f)` the first invocation of
`timer_ms_cntdwn` only counts down and the user's function is called on invocations
2 and 4, not 1 and 3; after `timer_ms(3, f)` it is called on invocation 4, not 3. -/
theorem timer_ms_period_off_by_one :
    (userCalledAt 1 1 = false ∧ userCalledAt 1 2 = true ∧ userCalledAt 1 3 = false ∧
      userCalledAt 1 4 = true) ∧
    (userCalledAt 3 3 = false ∧ userCalledAt 3 4 = true ∧ userCalledAt 3 6 = false ∧
      userCalledAt 3 8 = true) := by
  decide

/-! ### The timer-driven ping -/

/-- C14: on a platform with the readings it asks for, `check_timer` does one of three
things. If the clock reading is past `_max_time`, it cancels the periodic timer (the
action `timerStop` is added to the actions performed) and returns false, leaving the
sensor as it was. Otherwise, if the echo line is read active, it cancels the timer in
the same way, stores the next clock reading minus the echo start
`_max_time - _maxEchoTime` minus `PING_TIMER_OVERHEAD` in `ping_result`, leaving the
other members alone, and returns true. Otherwise it returns false, performs no action
at all, so that the timer keeps running, and leaves the sensor with `ping_result` as
it was. -/
theorem check_timer_cases (cfg : Config) (s : Sensor) (w : World) :
    (∀ m cs, w.clock = m :: cs → s.max_time < m % ULONG →
      check_timer cfg s w = some (false, s,
        { echo := w.echo, clock := cs, actions := w.actions ++ [Action.timerStop] })) ∧
    (∀ m m2 cs e es, w.clock = m :: m2 :: cs → ¬ s.max_time < m % ULONG →
      w.echo = e :: es → cfg.isActive e = true →
      check_timer cfg s w = some (true,
        { maxEchoTime := s.maxEchoTime, max_time := s.max_time,
          ping_result := subL (subL (m2 % ULONG) (subL s.max_time s.maxEchoTime))
            cfg.pingTimerOverhead },
        { echo := es, clock := cs, actions := w.actions ++ [Action.timerStop] })) ∧
    (∀ m cs e es, w.clock = m :: cs → ¬ s.max_time < m % ULONG →
      w.echo = e :: es → cfg.isActive e = false →
      check_timer cfg s w = some (false, s,
        { echo := es, clock := cs, actions := w.actions })) := by
  refine ⟨?_, ?_, ?_⟩
  · intro m cs hc hm
    simp [check_timer, micros, timer_stop, World.act, hc, hm]
  · intro m m2 cs e es hc hm he ha
    simp [check_timer, micros, readEcho, timer_stop, World.act, hc, hm, he, ha]
  · intro m cs e es hc hm he ha
    simp [check_timer, micros, readEcho, hc, hm, he, ha]

/-- C14 witness: the three cases on the default AVR build with deadline 29757, on a
platform where the trigger was set low before. Past the deadline and on an active echo
line the action `timerStop` follows the earlier one; on an inactive echo line the
actions are as before. -/
theorem check_timer_cases_witness :
    check_timer avr { maxEchoTime := 28557, max_time := 29757, ping_result := 7 }
        { echo := [true], clock := [31300, 31304], actions := [Action.triggerLow] }
      = some (false, { maxEchoTime := 28557, max_time := 29757, ping_result := 7 },
          { echo := [true], clock := [31304],
            actions := [Action.triggerLow, Action.timerStop] }) ∧
    check_timer avr { maxEchoTime := 28557, max_time := 29757, ping_result := 7 }
        { echo := [true], clock := [1300, 1304], actions := [Action.triggerLow] }
      = some (true, { maxEchoTime := 28557, max_time := 29757, ping_result := 91 },
          { echo := [], clock := [], actions := [Action.triggerLow, Action.timerStop] }) ∧
    check_timer avr { maxEchoTime := 28557, max_time := 29757, ping_result := 7 }
        { echo := [false], clock := [1300, 1304], actions := [Action.triggerLow] }
      = some (false, { maxEchoTime := 28557, max_time := 29757, ping_result := 7 },
          { echo := [], clock := [1304], actions := [Action.triggerLow] }) :=
  ⟨(check_timer_cases avr { maxEchoTime := 28557, max_time := 29757, ping_result := 7 }
      { echo := [true], clock := [31300, 31304], actions := [Action.triggerLow] }).1
      31300 [31304] rfl (by decide),
   (check_timer_cases avr { maxEchoTime := 28557, max_time := 29757, ping_result := 7 }
      { echo := [true], clock := [1300, 1304], actions := [Action.triggerLow] }).2.1
      1300 1304 [] true [] rfl (by decide) rfl (by decide),
   (check_timer_cases avr { maxEchoTime := 28557, max_time := 29757, ping_result := 7 }
      { echo := [false], clock := [1300, 1304], actions := [Action.triggerLow] }).2.2
      1300 [1304] false [] rfl (by decide) rfl (by decide)⟩

/-- C15, the code at the failing input: with deadline 29757 and clock reading 1300,
when the echo line is read active `check_timer` reports success and stores a
measurement while the wait loop of `ping` keeps polling (it goes on to the next
readings), and when the echo line is read inactive the wait loop of `ping` is left
for the measurement while `check_timer` returns false and keeps the timer running. -/
theorem check_timer_inverts_ping_wait :
    check_timer avr { maxEchoTime := 28557, max_time := 29757 }
        { echo := [true, true, false], clock := [1300, 1304, 1400] }
      = some (true, { maxEchoTime := 28557, max_time := 29757, ping_result := 91 },
          timer_stop { echo := [true, false], clock := [1400] }) ∧
    World.poll { echo := [true, true, false], clock := [1300, 1304, 1400] } avr.isActive 29757
      = World.poll { echo := [true, false], clock := [1304, 1400] } avr.isActive 29757 ∧
    check_timer avr { maxEchoTime := 28557, max_time := 29757 }
        { echo := [false, true], clock := [1300, 1304] }
      = some (false, { maxEchoTime := 28557, max_time := 29757 },
          { echo := [true], clock := [1304] }) ∧
    World.poll { echo := [false, true], clock := [1300, 1304] } avr.isActive 29757
      = some (true, { echo := [true], clock := [1300, 1304] }) := by
  decide

/-! ### The trigger -/

/-- A poll loop is left because its condition became false exactly when the condition
holds at some readings of the echo pin, all followed by clock readings within the
deadline, and then fails at the next reading of the echo pin. -/
theorem pollEcho_true_iff (cond : Bool → Bool) (deadline : Nat) :
    ∀ (echo : List Bool) (clock : List Nat) (es : List Bool) (cs1 : List Nat),
      pollEcho cond deadline echo clock = some (true, es, cs1) ↔
      ∃ waits e cs, echo = waits ++ e :: es ∧ (∀ x ∈ waits, cond x = true) ∧ cond e = false ∧
        clock = cs ++ cs1 ∧ cs.length = waits.length ∧ ∀ c ∈ cs, c % ULONG ≤ deadline := by
  intro echo
  induction echo with
  | nil =>
    intro clock es cs1
    simp [pollEcho]
  | cons x xs ih =>
    intro clock es cs1
    by_cases hx : cond x = true
    · cases clock with
      | nil =>
        simp only [pollEcho, hx, if_true]
        constructor
        · intro h; simp at h
        · rintro ⟨waits, e, cs, hecho, hw, he, hclock, hlen, _⟩
          cases waits with
          | nil =>
            simp only [List.nil_append, List.cons.injEq] at hecho
            rw [← hecho.1, hx] at he
            simp at he
          | cons y ys =>
            cases cs with
            | nil => simp at hlen
            | cons c cs => simp at hclock
      | cons c cl =>
        by_cases hc : c % ULONG > deadline
        · simp only [pollEcho, hx, if_true, hc]
          constructor
          · intro h; simp at h
          · rintro ⟨waits, e, cs, hecho, hw, he, hclock, hlen, hle⟩
            cases waits with
            | nil =>
              simp only [List.nil_append, List.cons.injEq] at hecho
              rw [← hecho.1, hx] at he
              simp at he
            | cons y ys =>
              cases cs with
              | nil => simp at hlen
              | cons c2 cs =>
                simp only [List.cons_append, List.cons.injEq] at hclock
                have := hle c2 (by simp)
                rw [← hclock.1] at this
                omega
        · simp only [pollEcho, hx, if_true, hc, if_false]
          rw [ih cl es cs1]
          constructor
          · rintro ⟨waits, e, cs, hecho, hw, he, hclock, hlen, hle⟩
            refine ⟨x :: waits, e, c :: cs, by simp [hecho], ?_, he, by simp [hclock],
              by simp [hlen], ?_⟩
            · intro y hy
              rcases List.mem_cons.1 hy with rfl | hy
              · exact hx
              · exact hw y hy
            · intro y hy
              rcases List.mem_cons.1 hy with rfl | hy
              · omega
              · exact hle y hy
          · rintro ⟨waits, e, cs, hecho, hw, he, hclock, hlen, hle⟩
            cases waits with
            | nil =>
              simp only [List.nil_append, List.cons.injEq] at hecho
              rw [← hecho.1, hx] at he
              simp at he
            | cons y ys =>
              cases cs with
              | nil => simp at hlen
              | cons c2 cs =>
                simp only [List.cons_append, List.cons.injEq] at hclock hecho
                exact ⟨ys, e, cs, hecho.2, fun z hz => hw z (by simp [hz]), he, hclock.2,
                  by simpa using hlen, fun z hz => hle z (by simp [hz])⟩
    · have hx' : cond x = false := by simpa using hx
      simp only [pollEcho, hx', Bool.false_eq_true, if_false]
      constructor
      · intro h
        simp only [Option.some.injEq, Prod.mk.injEq, true_and] at h
        exact ⟨[], x, [], by simp [h.1], by simp, hx', by simp [h.2], rfl,
          by simp⟩
      · rintro ⟨waits, e, cs, hecho, hw, he, hclock, hlen, _⟩
        cases waits with
        | nil =>
          simp only [List.nil_append, List.cons.injEq] at hecho
          have hcs : cs = [] := List.length_eq_zero.1 (by simpa using hlen)
          subst hcs
          simp only [List.nil_append] at hclock
          simp [hecho.2, hclock]
        | cons y ys =>
          simp only [List.cons_append, List.cons.injEq] at hecho
          have := hw y (by simp)
          rw [← hecho.1] at this
          exact absurd this hx


/-- The trigger pulse consumes no clock reading. -/
theorem triggerPulse_clock (cfg : Config) (w : World) :
    (triggerPulse cfg w).clock = w.clock := by
  unfold triggerPulse World.act
  split_ifs <;> rfl

/-- The two level tests `ULTRAPING_ISNOTACTIVE` and `ULTRAPING_ISACTIVE` are opposite. -/
theorem isNotActive_eq (cfg : Config) (e : Bool) : cfg.isNotActive e = !cfg.isActive e := by
  unfold Config.isNotActive Config.isActive
  split <;> simp

/-- The rest of `ping_trigger` once the echo line was read inactive after the pulse
and the clock was read. -/
theorem ping_trigger_unfold (cfg : Config) (s : Sensor) (w : World) (e0 : Bool)
    (rest : List Bool) (t0 : Nat) (crest : List Nat)
    (hecho : w.echo = e0 :: rest) (hna : cfg.isActive e0 = false)
    (hclock : w.clock = t0 :: crest) :
    ping_trigger cfg s w =
      match pollEcho cfg.isNotActive (addL (addL (t0 % ULONG) s.maxEchoTime) MAX_SENSOR_DELAY)
          rest crest with
      | none => none
      | some (false, es, cs) =>
        some (false,
          { s with max_time := addL (addL (t0 % ULONG) s.maxEchoTime) MAX_SENSOR_DELAY },
          { triggerPulse cfg w with echo := es, clock := cs })
      | some (true, _, []) => none
      | some (true, es, t1 :: cs1) =>
        some (true, { s with max_time := addL (t1 % ULONG) s.maxEchoTime },
          { triggerPulse cfg w with echo := es, clock := cs1 }) := by
  have he : (triggerPulse cfg w).echo = e0 :: rest := by rw [triggerPulse_echo, hecho]
  have hc : (triggerPulse cfg w).clock = t0 :: crest := by rw [triggerPulse_clock, hclock]
  simp only [ping_trigger, readEcho, he, hna, micros, hc, World.poll, Bool.false_eq_true,
    if_false]
  cases hp : pollEcho cfg.isNotActive (addL (addL (t0 % ULONG) s.maxEchoTime) MAX_SENSOR_DELAY)
      rest crest with
  | none => rfl
  | some r =>
    obtain ⟨ok, es, cs⟩ := r
    cases ok with
    | false => rfl
    | true =>
      cases cs with
      | nil => rfl
      | cons t1 cs1 => rfl


/-- A call of `ping_trigger` returns true exactly on the worlds of this shape: the
echo line is read inactive after the pulse, then inactive at polls whose clock
readings stay within the start deadline, then active. -/
theorem ping_trigger_true_iff (cfg : Config) (s : Sensor) (w : World) (s1 : Sensor)
    (w1 : World) :
    ping_trigger cfg s w = some (true, s1, w1) ↔
      ∃ e0 waits eA es t0 cs t1 cs1,
        w.echo = e0 :: (waits ++ eA :: es) ∧ cfg.isActive e0 = false ∧
        (∀ e ∈ waits, cfg.isActive e = false) ∧ cfg.isActive eA = true ∧
        w.clock = t0 :: (cs ++ t1 :: cs1) ∧ cs.length = waits.length ∧
        (∀ c ∈ cs, c % ULONG ≤ addL (addL (t0 % ULONG) s.maxEchoTime) MAX_SENSOR_DELAY) ∧
        s1 = { s with max_time := addL (t1 % ULONG) s.maxEchoTime } ∧
        w1 = { triggerPulse cfg w with echo := es, clock := cs1 } := by
  constructor
  · intro h
    cases hecho : w.echo with
    | nil =>
      simp [ping_trigger, readEcho, triggerPulse_echo, hecho] at h
    | cons e0 rest =>
      by_cases ha : cfg.isActive e0 = true
      · simp [ping_trigger, readEcho, triggerPulse_echo, hecho, ha] at h
      · have hna : cfg.isActive e0 = false := by simpa using ha
        cases hclock : w.clock with
        | nil =>
          simp [ping_trigger, readEcho, triggerPulse_echo, hecho, hna, micros,
            triggerPulse_clock, hclock] at h
        | cons t0 crest =>
          rw [ping_trigger_unfold cfg s w e0 rest t0 crest hecho hna hclock] at h
          split at h
          · simp at h
          · simp at h
          · simp at h
          · rename_i es t1 cs1 hp
            simp only [Option.some.injEq, Prod.mk.injEq, true_and] at h
            obtain ⟨waits, eA, cs, h1, h2, h3, h4, h5, h6⟩ :=
              (pollEcho_true_iff _ _ _ _ _ _).1 hp
            refine ⟨e0, waits, eA, es, t0, cs, t1, cs1, by rw [h1], hna, ?_, ?_,
              by rw [h4], h5, h6, h.1.symm, h.2.symm⟩
            · intro e he
              have := h2 e he
              rw [isNotActive_eq] at this
              simpa using this
            · rw [isNotActive_eq] at h3
              simpa using h3
  · rintro ⟨e0, waits, eA, es, t0, cs, t1, cs1, hecho, hna, hw, hA, hclock, hlen, hle, rfl, rfl⟩
    rw [ping_trigger_unfold cfg s w e0 (waits ++ eA :: es) t0 (cs ++ t1 :: cs1) hecho hna
      hclock]
    have hp : pollEcho cfg.isNotActive
        (addL (addL (t0 % ULONG) s.maxEchoTime) MAX_SENSOR_DELAY)
        (waits ++ eA :: es) (cs ++ t1 :: cs1) = some (true, es, t1 :: cs1) := by
      refine (pollEcho_true_iff _ _ _ _ _ _).2 ⟨waits, eA, cs, rfl, ?_, ?_, rfl, hlen, hle⟩
      · intro e he
        rw [isNotActive_eq, hw e he]; rfl
      · rw [isNotActive_eq, hA]; rfl
    rw [hp]

/-- C16, counterexample: the first echo has `first_length = 200` and is recorded, the
second pulse's echo starts at 1300 and ends at 1350, which is 350 microseconds after
the first pulse's echo start at 1000. The time from the first pulse's start less the
overhead, 345, is not below three quarters of 200, yet a hit is recorded and `offset`
becomes 355 instead of growing by 100. -/
theorem ping_multi_records_on_second_pulse_length :
    (ping_multi avr [0, 0] 2 0 0 { maxEchoTime := 28557, max_time := 0 }
        { echo := [false, true, false, false, true, false],
          clock := [996, 1000, 1195, 1196, 1290, 1300, 1350] }).map
        (fun r => (r.1, r.2.hit, r.2.offset))
      = some (2, [200, 355], 355) ∧
    subL (subL 1350 1000) avr.pingOverhead = 345 ∧
    ¬ (4 * 345 < 3 * 200) := by
  decide

/-- C16, amended: when the second pulse of an iteration reaches the disambiguation
step, a hit is recorded exactly when `lengthSecond`, the time from the second pulse's
own echo start `_max_time - _maxEchoTime` to the end of its echo less `PING_OVERHEAD`,
is below `first_length / 2 + first_length / 4`; the hit and the new `offset` are then
`second_end_time - first_start`. Otherwise the hit count and the buffer are unchanged
and `offset` grows by `first_length / 2` as an `unsigned int`. -/
theorem ping_multi_disambiguation (cfg : Config) (maximum_hits first_max_time first_start
    first_length : Nat) (st : MultiState) (cs : List Nat) (s2 : Sensor) (w5 w6 w7 : World)
    (second_end_time : Nat)
    (hspin : spinUntil (addL first_start st.offset) st.world.clock = some cs)
    (htrig : ping_trigger cfg st.sensor { st.world with clock := cs } = some (true, s2, w5))
    (hpoll : w5.poll cfg.isActive first_max_time = some (true, w6))
    (hend : micros w6 = some (second_end_time, w7)) :
    ∃ st1,
      ping_multi_second cfg maximum_hits first_max_time first_start first_length st
        = some (MultiStep.again st1) ∧
      (subL (subL second_end_time (subL s2.max_time s2.maxEchoTime)) cfg.pingOverhead
          < THREE_QUARTERS first_length →
        st1.i = st.i + 1 ∧
        st1.hit = st.hit.set st.i (cfg.toUInt (subL second_end_time first_start)) ∧
        st1.offset = cfg.toUInt (subL second_end_time first_start)) ∧
      (¬ subL (subL second_end_time (subL s2.max_time s2.maxEchoTime)) cfg.pingOverhead
          < THREE_QUARTERS first_length →
        st1.i = st.i ∧ st1.hit = st.hit ∧
        st1.offset = cfg.toUInt (st.offset + first_length / 2)) := by
  unfold ping_multi_second
  simp only [hspin, htrig, hpoll, hend]
  by_cases hlt : subL (subL second_end_time (subL s2.max_time s2.maxEchoTime)) cfg.pingOverhead
      < THREE_QUARTERS first_length
  · simp only [hlt, if_true, not_true_eq_false, false_implies, and_true, true_implies]
    split_ifs
    · exact ⟨_, rfl, rfl, rfl, rfl⟩
    · exact ⟨_, rfl, rfl, rfl, rfl⟩
  · simp only [hlt, if_false, not_false_eq_true, false_implies, true_and, true_implies]
    split_ifs
    · exact ⟨_, rfl, rfl, rfl, rfl⟩
    · exact ⟨_, rfl, rfl, rfl, rfl⟩


/-- C16 witness: with `first_length = 200`, `offset = 200` and a second pulse whose
echo starts at 1300 and ends at 1655 (`lengthSecond = 350`, not below 150), no hit is
recorded and `offset` grows by 100 to 300. -/
theorem ping_multi_disambiguation_witness :
    ¬ (subL (subL 1655 (subL 29857 28557)) avr.pingOverhead < THREE_QUARTERS 200) ∧
    ∃ st1,
      ping_multi_second avr 2 29557 995 200
          { offset := 200, i := 1, hit := [200, 0],
            sensor := { maxEchoTime := 28557, max_time := 29557 },
            world := { echo := [false, true, false], clock := [1196, 1290, 1300, 1655] } }
        = some (MultiStep.again st1) ∧
      st1.i = 1 ∧ st1.hit = [200, 0] ∧ st1.offset = 300 :=
  ⟨by decide,
   match ping_multi_disambiguation avr 2 29557 995 200
      { offset := 200, i := 1, hit := [200, 0],
        sensor := { maxEchoTime := 28557, max_time := 29557 },
        world := { echo := [false, true, false], clock := [1196, 1290, 1300, 1655] } }
      [1290, 1300, 1655] { maxEchoTime := 28557, max_time := 29857 }
      (triggerPulse avr { echo := [false], clock := [1655] })
      (triggerPulse avr { echo := [], clock := [1655] })
      (triggerPulse avr { echo := [], clock := [] }) 1655
      (by decide) (by decide) (by decide) (by decide) with
   | ⟨st1, h, _, h2⟩ => ⟨st1, h, h2 (by decide)⟩⟩

/-- A poll loop leaves a suffix of the clock readings. -/
theorem pollEcho_clock_suffix (cond : Bool → Bool) (deadline : Nat) :
    ∀ (es : List Bool) (cs : List Nat) (ok : Bool) (es1 : List Bool) (cs1 : List Nat),
      pollEcho cond deadline es cs = some (ok, es1, cs1) → ∃ pre, cs = pre ++ cs1 := by
  intro es
  induction es with
  | nil => intro cs ok es1 cs1 h; simp [pollEcho] at h
  | cons e es ih =>
    intro cs ok es1 cs1 h
    unfold pollEcho at h
    split_ifs at h with hc
    · split at h
      · simp at h
      · rename_i c cs2
        split_ifs at h
        · simp only [Option.some.injEq, Prod.mk.injEq] at h
          exact ⟨[c], by simp [h.2.2]⟩
        · obtain ⟨pre, hpre⟩ := ih _ _ _ _ h
          exact ⟨c :: pre, by simp [hpre]⟩
    · simp only [Option.some.injEq, Prod.mk.injEq] at h
      exact ⟨[], by simp [h.2.2]⟩

/-- A poll loop run on a world leaves a suffix of its clock readings. -/
theorem World.poll_clock_suffix {w w1 : World} {cond : Bool → Bool} {deadline : Nat}
    {ok : Bool} (h : w.poll cond deadline = some (ok, w1)) : ∃ pre, w.clock = pre ++ w1.clock := by
  unfold World.poll at h
  split at h
  · simp at h
  · rename_i ok1 es cs hp
    simp only [Option.some.injEq, Prod.mk.injEq] at h
    obtain ⟨_, rfl⟩ := h
    exact pollEcho_clock_suffix _ _ _ _ _ _ _ hp

/-- The call `micros()` consumes one clock reading and returns it as an `unsigned long`. -/
theorem micros_clock {w w1 : World} {t : Nat} (h : micros w = some (t, w1)) :
    ∃ c, w.clock = c :: w1.clock ∧ t = c % ULONG := by
  unfold micros at h
  split at h
  · simp at h
  · rename_i c cs hc
    simp only [Option.some.injEq, Prod.mk.injEq] at h
    obtain ⟨rfl, rfl⟩ := h
    exact ⟨c, hc, rfl⟩

/-- The busy wait of line 98 ends at a reading that is not below its target. -/
theorem spinUntil_spec (target : Nat) :
    ∀ (cs cs1 : List Nat), spinUntil target cs = some cs1 →
      ∃ pre c, cs = pre ++ c :: cs1 ∧ target ≤ c % ULONG := by
  intro cs
  induction cs with
  | nil => intro cs1 h; simp [spinUntil] at h
  | cons c cs ih =>
    intro cs1 h
    unfold spinUntil at h
    split_ifs at h with hc
    · obtain ⟨pre, c2, hpre, hle⟩ := ih cs1 h
      exact ⟨c :: pre, c2, by simp [hpre], hle⟩
    · simp only [Option.some.injEq] at h
      exact ⟨[], c, by simp [h], by omega⟩

/-- The clock side of a successful trigger: the echo start `t1` is one of the
readings, and the readings left are those after it. -/
theorem ping_trigger_true_clock {cfg : Config} {s s1 : Sensor} {w w1 : World}
    (h : ping_trigger cfg s w = some (true, s1, w1)) :
    ∃ pre t1, w.clock = pre ++ t1 :: w1.clock ∧
      s1.max_time = addL (t1 % ULONG) s1.maxEchoTime := by
  obtain ⟨e0, waits, eA, es, t0, cs, t1, cs1, _, _, _, _, hclock, _, _, rfl, rfl⟩ :=
    (ping_trigger_true_iff cfg s w s1 w1).1 h
  exact ⟨t0 :: cs, t1, by simp [hclock], rfl⟩

/-- Subtracting what was added gives the original `unsigned long` back. -/
theorem subL_addL (a b : Nat) (ha : a < ULONG) : subL (addL a b) b = a := by
  unfold subL addL
  have hpos := ULONG_pos
  rw [Nat.mod_mod]
  have hb : b % ULONG < ULONG := Nat.mod_lt _ hpos
  have h1 : (a + b) % ULONG = (a + b % ULONG) % ULONG := by
    rw [Nat.add_mod, Nat.mod_eq_of_lt ha]
  rw [h1]
  by_cases hlt : a + b % ULONG < ULONG
  · rw [Nat.mod_eq_of_lt hlt]
    have e : a + b % ULONG + (ULONG - b % ULONG) = a + ULONG := by omega
    rw [e, Nat.add_mod_right, Nat.mod_eq_of_lt ha]
  · have e1 : a + b % ULONG = (a + b % ULONG - ULONG) + ULONG := by omega
    have h2 : (a + b % ULONG) % ULONG = a + b % ULONG - ULONG := by
      conv_lhs => rw [e1]
      rw [Nat.add_mod_right]
      exact Nat.mod_eq_of_lt (by omega)
    rw [h2]
    have e : a + b % ULONG - ULONG + (ULONG - b % ULONG) = a := by omega
    rw [e, Nat.mod_eq_of_lt ha]

/-- Subtraction of `unsigned long` values without borrow. -/
theorem subL_of_le (a b : Nat) (ha : a < ULONG) (hba : b ≤ a) : subL a b = a - b := by
  unfold subL
  have hb : b < ULONG := by omega
  rw [Nat.mod_eq_of_lt ha, Nat.mod_eq_of_lt hb]
  have e : a + (ULONG - b) = (a - b) + ULONG := by omega
  rw [e, Nat.add_mod_right]
  exact Nat.mod_eq_of_lt (by omega)

/-- Writing element `i` of a list and keeping its first `i + 1` elements. -/
theorem take_succ_set (l : List Nat) (i v : Nat) (hi : i < l.length) :
    (l.set i v).take (i + 1) = l.take i ++ [v] := by
  have hsplit : l = l.take i ++ (l[i] :: l.drop (i + 1)) := by
    rw [← List.drop_eq_getElem_cons hi, List.take_append_drop]
  have hlen : (l.take i).length = i := by simp; omega
  conv_lhs => rw [hsplit]
  rw [List.set_append_right _ _ (by omega), hlen, Nat.sub_self, List.set_cons_zero]
  have e : l.take i ++ v :: l.drop (i + 1) = (l.take i ++ [v]) ++ l.drop (i + 1) := by simp
  rw [e, List.take_left' (by simp; omega)]

/-- Recording a value that is at least `offset` as the next hit, and making it the new
`offset`, keeps the hits ordered. -/
theorem HitsOrdered.push {st : MultiState} (h : HitsOrdered st) (v : Nat) (s : Sensor)
    (w : World) (hi : st.i < st.hit.length) (hv : st.offset ≤ v) :
    HitsOrdered
      { offset := v, i := st.i + 1, hit := st.hit.set st.i v, sensor := s, world := w } := by
  obtain ⟨hs, hle⟩ := h
  unfold HitsOrdered
  simp only
  rw [take_succ_set st.hit st.i v hi]
  constructor
  · refine List.pairwise_append.2 ⟨hs, List.pairwise_singleton _ _, ?_⟩
    intro x hx y hy
    simp only [List.mem_singleton] at hy
    subst hy
    exact le_trans (hle x hx) hv
  · intro x hx
    rcases List.mem_append.1 hx with hx | hx
    · exact le_trans (hle x hx) hv
    · simp only [List.mem_singleton] at hx
      omega

/-- The conditions of `noWrapPass` along the path that a pass takes. -/
theorem noWrapPass_spec {cfg : Config} {maximum_hits threshold_distance : Nat}
    {st : MultiState} (h : noWrapPass cfg maximum_hits threshold_distance st = true)
    {m : MultiMid}
    (hm : ping_multi_first cfg maximum_hits threshold_distance st = some (MultiFirst.goesOn m)) :
    cfg.pingOverhead ≤ subL m.first_max_time m.st.sensor.maxEchoTime ∧
    (m.first_start ≤ m.first_end ∧ m.first_end - m.first_start < cfg.UINT) ∧
    m.first_start + m.st.offset < ULONG ∧
    ∀ cs s2 w5 w6 second_end_time w7,
      spinUntil (addL m.first_start m.st.offset) m.st.world.clock = some cs →
      ping_trigger cfg m.st.sensor { m.st.world with clock := cs } = some (true, s2, w5) →
      w5.poll cfg.isActive m.first_max_time = some (true, w6) →
      micros w6 = some (second_end_time, w7) →
      (subL (subL second_end_time (subL s2.max_time s2.maxEchoTime)) cfg.pingOverhead
          < THREE_QUARTERS m.first_length →
        m.first_start ≤ second_end_time ∧ second_end_time - m.first_start < cfg.UINT) ∧
      (¬ subL (subL second_end_time (subL s2.max_time s2.maxEchoTime)) cfg.pingOverhead
          < THREE_QUARTERS m.first_length →
        m.st.offset + m.first_length / 2 < cfg.UINT) := by
  unfold noWrapPass at h
  rw [hm] at h
  simp only [Bool.and_eq_true, decide_eq_true_eq] at h
  obtain ⟨⟨⟨h1, h2⟩, h3⟩, h4⟩ := h
  refine ⟨h1, h2, h3, ?_⟩
  intro cs s2 w5 w6 t w7 hs ht hp hmi
  simp only [hs, ht, hp, hmi] at h4
  split_ifs at h4 with hc
  · exact ⟨fun _ => by simpa using h4, fun hn => absurd hc hn⟩
  · exact ⟨fun hn => absurd hn hc, fun _ => by simpa using h4⟩

/-- The later readings of a clock that never decreases never decrease. -/
theorem ClockSorted.of_append {pre cs : List Nat} (h : ClockSorted (pre ++ cs)) :
    ClockSorted cs := by
  unfold ClockSorted at h ⊢
  rw [List.map_append] at h
  exact (List.pairwise_append.1 h).2.1

/-- A reading of a clock that never decreases is at most every later reading. -/
theorem ClockSorted.le_of_append {pre cs : List Nat} {c : Nat}
    (h : ClockSorted (pre ++ c :: cs)) :
    ClockSorted cs ∧ ∀ x ∈ cs, c % ULONG ≤ x % ULONG := by
  have h1 : ClockSorted (c :: cs) := h.of_append
  refine ⟨@ClockSorted.of_append [c] cs h1, ?_⟩
  unfold ClockSorted at h1
  rw [List.map_cons] at h1
  intro x hx
  exact List.rel_of_sorted_cons h1 (x % ULONG) (List.mem_map.2 ⟨x, hx, rfl⟩)

/-- Leaving the hits alone and not lowering `offset` is an advance. -/
theorem MultiAdvance.same {st st1 : MultiState} (hoff : st.offset ≤ st1.offset)
    (hi : st1.i = st.i) (hhit : st1.hit = st.hit) : MultiAdvance st st1 :=
  ⟨hoff, Or.inl ⟨hi, hhit⟩⟩

/-- Ordered hits stay ordered when `offset` does not decrease and the hit recorded, if
any, is the new `offset`. -/
theorem HitsOrdered.advance {st st1 : MultiState} (h : HitsOrdered st)
    (hi : st.i < st.hit.length) (hadv : MultiAdvance st st1) : HitsOrdered st1 := by
  obtain ⟨hoff, ⟨h1, h2⟩ | ⟨h1, h2⟩⟩ := hadv
  · unfold HitsOrdered
    rw [h1, h2]
    exact ⟨h.1, fun x hx => le_trans (h.2 x hx) hoff⟩
  · have := h.push st1.offset st1.sensor st1.world hi hoff
    unfold HitsOrdered at this ⊢
    simp only at this
    rw [h1, h2]
    exact this

/-- The second pulse does not lower `offset` and records at most one hit, equal to the
new `offset`, when the clock never decreases, the target of the wait does not wrap, and
the hit recorded or the sum stored is not truncated. -/
theorem ping_multi_second_advance (cfg : Config) (maximum_hits fmt fs fl : Nat)
    (st : MultiState) (r : MultiStep)
    (hclock : ClockSorted st.world.clock)
    (hD : fs + st.offset < ULONG)
    (hpath : ∀ cs s2 w5 w6 second_end_time w7,
      spinUntil (addL fs st.offset) st.world.clock = some cs →
      ping_trigger cfg st.sensor { st.world with clock := cs } = some (true, s2, w5) →
      w5.poll cfg.isActive fmt = some (true, w6) →
      micros w6 = some (second_end_time, w7) →
      (subL (subL second_end_time (subL s2.max_time s2.maxEchoTime)) cfg.pingOverhead
          < THREE_QUARTERS fl →
        fs ≤ second_end_time ∧ second_end_time - fs < cfg.UINT) ∧
      (¬ subL (subL second_end_time (subL s2.max_time s2.maxEchoTime)) cfg.pingOverhead
          < THREE_QUARTERS fl →
        st.offset + fl / 2 < cfg.UINT))
    (h : ping_multi_second cfg maximum_hits fmt fs fl st = some r) :
    MultiAdvance st r.state ∧
    ∀ st1, r = MultiStep.again st1 → ClockSorted st1.world.clock := by
  unfold ping_multi_second at h
  cases hs : spinUntil (addL fs st.offset) st.world.clock with
  | none => simp [hs] at h
  | some cs =>
    simp only [hs] at h
    obtain ⟨pre, c, hcs, htarget⟩ := spinUntil_spec _ _ _ hs
    rw [hcs] at hclock
    obtain ⟨hok1, hcle⟩ := hclock.le_of_append
    have htar : fs + st.offset ≤ c % ULONG := by
      have : addL fs st.offset = fs + st.offset := Nat.mod_eq_of_lt hD
      rw [this] at htarget
      exact htarget
    cases ht : ping_trigger cfg st.sensor { st.world with clock := cs } with
    | none => simp [ht] at h
    | some r1 =>
      obtain ⟨ok, s2, w5⟩ := r1
      cases ok with
      | false =>
        simp only [ht, Option.some.injEq] at h
        subst h
        exact ⟨MultiAdvance.same (Nat.le_refl _) rfl rfl, fun st1 h1 => by simp at h1⟩
      | true =>
        simp only [ht] at h
        obtain ⟨pre2, t2, hw5, _⟩ := ping_trigger_true_clock ht
        simp only at hw5
        cases hp : w5.poll cfg.isActive fmt with
        | none => simp [hp] at h
        | some r2 =>
          obtain ⟨ok2, w6⟩ := r2
          cases ok2 with
          | false =>
            simp only [hp, Option.some.injEq] at h
            subst h
            exact ⟨MultiAdvance.same (Nat.le_refl _) rfl rfl, fun st1 h1 => by simp at h1⟩
          | true =>
            simp only [hp] at h
            obtain ⟨pre3, hw6⟩ := World.poll_clock_suffix hp
            cases hm : micros w6 with
            | none => simp [hm] at h
            | some r3 =>
              obtain ⟨e2, w7⟩ := r3
              simp only [hm] at h
              obtain ⟨c2, hw7, he2⟩ := micros_clock hm
              have hcs2 : cs = (pre2 ++ t2 :: pre3) ++ c2 :: w7.clock := by
                rw [hw5, hw6, hw7]; simp
              have hc2mem : c2 ∈ cs := by rw [hcs2]; simp
              have hok3 : ClockSorted w7.clock := by
                rw [hcs2] at hok1
                exact hok1.le_of_append.1
              have hcc2 : c % ULONG ≤ e2 := by rw [he2]; exact hcle c2 hc2mem
              have he2lt : e2 < ULONG := by rw [he2]; exact Nat.mod_lt _ ULONG_pos
              obtain ⟨hrec, hsum⟩ := hpath cs s2 w5 w6 e2 w7 hs ht hp hm
              by_cases hcond : subL (subL e2 (subL s2.max_time s2.maxEchoTime)) cfg.pingOverhead
                  < THREE_QUARTERS fl
              · obtain ⟨hfs, hfit⟩ := hrec hcond
                have hv : cfg.toUInt (subL e2 fs) = e2 - fs := by
                  rw [subL_of_le e2 fs he2lt hfs]
                  exact Nat.mod_eq_of_lt hfit
                simp only [hcond, if_true, hv] at h
                split_ifs at h
                all_goals (simp only [Option.some.injEq] at h; subst h)
                all_goals
                  refine ⟨⟨?_, Or.inr ⟨rfl, rfl⟩⟩, fun st1 h1 => ?_⟩
                  · simp only [MultiStep.state]; omega
                  · simp only [MultiStep.again.injEq] at h1
                    subst h1
                    exact hok3
              · have hoff : cfg.toUInt (st.offset + fl / 2) = st.offset + fl / 2 :=
                  Nat.mod_eq_of_lt (hsum hcond)
                simp only [hcond, if_false, hoff] at h
                split_ifs at h
                all_goals (simp only [Option.some.injEq] at h; subst h)
                all_goals
                  refine ⟨⟨?_, Or.inl ⟨rfl, rfl⟩⟩, fun st1 h1 => ?_⟩
                  · simp only [MultiStep.state]; omega
                  · simp only [MultiStep.again.injEq] at h1
                    subst h1
                    exact hok3

/-- A `return` in lines 80 to 96 has left the hits alone or recorded the first echo
while `offset` was still 0. -/
theorem ping_multi_first_returned_advance {cfg : Config}
    {maximum_hits threshold_distance : Nat} {st st1 : MultiState} {ret : Nat}
    (h : ping_multi_first cfg maximum_hits threshold_distance st
      = some (MultiFirst.returned ret st1)) :
    MultiAdvance st st1 := by
  unfold ping_multi_first at h
  cases ht : ping_trigger cfg st.sensor st.world with
  | none => simp [ht] at h
  | some r =>
    obtain ⟨ok, s1, w1⟩ := r
    cases ok with
    | false =>
      simp only [ht, Option.some.injEq, MultiFirst.returned.injEq] at h
      rw [← h.2]; exact MultiAdvance.same (Nat.le_refl _) rfl rfl
    | true =>
      simp only [ht] at h
      cases hp : w1.poll cfg.isActive s1.max_time with
      | none => simp [hp] at h
      | some r2 =>
        obtain ⟨ok2, w2⟩ := r2
        cases ok2 with
        | false =>
          simp only [hp, Option.some.injEq, MultiFirst.returned.injEq] at h
          rw [← h.2]; exact MultiAdvance.same (Nat.le_refl _) rfl rfl
        | true =>
          simp only [hp] at h
          cases hm : micros w2 with
          | none => simp [hm] at h
          | some r3 =>
            obtain ⟨t, w3⟩ := r3
            simp only [hm] at h
            split_ifs at h with h0 h1 h2
            · simp only [Option.some.injEq, MultiFirst.returned.injEq] at h
              rw [← h.2]
              exact ⟨by simp only; omega, Or.inr ⟨rfl, rfl⟩⟩
            all_goals simp at h

/-- What lines 80 to 96 hand on to line 98: `offset` was not lowered and at most the
first echo was recorded, the clock readings left are later ones, the first echo ended
not before it started, and `offset` is either the nonzero value with which the pass
started or not below `first_length`. -/
theorem ping_multi_first_goesOn {cfg : Config} {maximum_hits threshold_distance : Nat}
    {st : MultiState} {m : MultiMid}
    (hclock : ClockSorted st.world.clock) (hlt : st.i < maximum_hits)
    (h : ping_multi_first cfg maximum_hits threshold_distance st = some (MultiFirst.goesOn m)) :
    MultiAdvance st m.st ∧ ClockSorted m.st.world.clock ∧ m.st.i < maximum_hits ∧
    m.st.hit.length = st.hit.length ∧
    m.first_start = subL (subL m.first_max_time m.st.sensor.maxEchoTime) cfg.pingOverhead ∧
    m.first_length = cfg.toUInt (subL m.first_end m.first_start) ∧
    subL m.first_max_time m.st.sensor.maxEchoTime ≤ m.first_end ∧
    m.first_end < ULONG ∧
    ((st.offset ≠ 0 ∧ m.st.offset = st.offset) ∨
     (st.offset = 0 ∧ m.first_length ≤ m.st.offset)) := by
  unfold ping_multi_first at h
  cases ht : ping_trigger cfg st.sensor st.world with
  | none => simp [ht] at h
  | some r =>
    obtain ⟨ok, s1, w1⟩ := r
    cases ok with
    | false => simp [ht] at h
    | true =>
      simp only [ht] at h
      obtain ⟨pre, t1, hw1, hmax⟩ := ping_trigger_true_clock ht
      rw [hw1] at hclock
      obtain ⟨hok1, hle1⟩ := hclock.le_of_append
      have hstart : subL s1.max_time s1.maxEchoTime = t1 % ULONG := by
        rw [hmax]; exact subL_addL _ _ (Nat.mod_lt _ ULONG_pos)
      cases hp : w1.poll cfg.isActive s1.max_time with
      | none => simp [hp] at h
      | some r2 =>
        obtain ⟨ok2, w2⟩ := r2
        cases ok2 with
        | false => simp [hp] at h
        | true =>
          simp only [hp] at h
          obtain ⟨pre2, hw2⟩ := World.poll_clock_suffix hp
          cases hm : micros w2 with
          | none => simp [hm] at h
          | some r3 =>
            obtain ⟨t, w3⟩ := r3
            simp only [hm] at h
            obtain ⟨c, hw3, htc⟩ := micros_clock hm
            have hw1' : w1.clock = pre2 ++ c :: w3.clock := by rw [hw2, hw3]
            have hok3 : ClockSorted w3.clock := by
              rw [hw1'] at hok1; exact hok1.le_of_append.1
            have hcmem : c ∈ w1.clock := by rw [hw1']; simp
            have ht1t : t1 % ULONG ≤ t := by rw [htc]; exact hle1 c hcmem
            have htlt : t < ULONG := by rw [htc]; exact Nat.mod_lt _ ULONG_pos
            have hEt : subL s1.max_time s1.maxEchoTime ≤ t := by rw [hstart]; exact ht1t
            split_ifs at h with h0 h1 h2
            · simp at h
            · simp only [Option.some.injEq, MultiFirst.goesOn.injEq] at h
              subst h
              exact ⟨⟨by simp only; omega, Or.inr ⟨rfl, rfl⟩⟩, hok3, by simp only at h2 ⊢; omega,
                by simp, rfl, rfl, hEt, htlt, Or.inr ⟨h0, Nat.le_refl _⟩⟩
            · simp only [Option.some.injEq, MultiFirst.goesOn.injEq] at h
              subst h
              exact ⟨⟨by simp only; omega, Or.inl ⟨rfl, rfl⟩⟩, hok3, hlt, rfl, rfl, rfl, hEt,
                htlt, Or.inr ⟨h0, by simp only at h1 ⊢; omega⟩⟩
            · simp only [Option.some.injEq, MultiFirst.goesOn.injEq] at h
              subst h
              exact ⟨MultiAdvance.same (Nat.le_refl _) rfl rfl, hok3, hlt, rfl, rfl, rfl, hEt,
                htlt, Or.inl ⟨h0, rfl⟩⟩

/-- One pass of the loop of `ping_multi`, under a clock that never decreases and when
no computed time wraps or is truncated: ordered hits stay ordered, and a pass after
which the loop goes on leaves a clock that never decreases and, `PING_OVERHEAD` being
positive, an `offset` that is not 0. -/
theorem ping_multi_body_advance (cfg : Config) (maximum_hits threshold_distance : Nat)
    (st : MultiState) (r : MultiStep)
    (hnw : noWrapPass cfg maximum_hits threshold_distance st = true)
    (hclock : ClockSorted st.world.clock) (hlt : st.i < maximum_hits)
    (h : ping_multi_body cfg maximum_hits threshold_distance st = some r) :
    (HitsOrdered st → maximum_hits ≤ st.hit.length → HitsOrdered r.state) ∧
    (∀ st1, r = MultiStep.again st1 →
      ClockSorted st1.world.clock ∧ (0 < cfg.pingOverhead → 0 < st1.offset)) := by
  rw [ping_multi_body_eq] at h
  cases hf : ping_multi_first cfg maximum_hits threshold_distance st with
  | none => simp [hf] at h
  | some r1 =>
    cases r1 with
    | returned ret st1 =>
      simp only [hf, Option.some.injEq] at h
      subst h
      exact ⟨fun hord hlen => hord.advance (by omega) (ping_multi_first_returned_advance hf),
        fun st2 h2 => by simp at h2⟩
    | goesOn m =>
      simp only [hf] at h
      obtain ⟨hadv1, hclock1, hlt1, hlen1, hfs, hfl, hEt, htlt, hoff⟩ :=
        ping_multi_first_goesOn hclock hlt hf
      obtain ⟨hA, hB, hD, hpath⟩ := noWrapPass_spec hnw hf
      obtain ⟨hadv2, hclock2⟩ := ping_multi_second_advance cfg maximum_hits m.first_max_time
        m.first_start m.first_length m.st r hclock1 hD hpath h
      refine ⟨fun hord hlen => (hord.advance (by omega) hadv1).advance (by omega) hadv2,
        fun st1 h1 => ⟨hclock2 st1 h1, fun hov => ?_⟩⟩
      have hpos : 0 < m.st.offset := by
        rcases hoff with ⟨h0, _⟩ | ⟨_, hle⟩
        · have := hadv1.1
          omega
        · have hE : subL m.first_max_time m.st.sensor.maxEchoTime < ULONG := by omega
          have hfs' : m.first_start
              = subL m.first_max_time m.st.sensor.maxEchoTime - cfg.pingOverhead := by
            rw [hfs]; exact subL_of_le _ _ hE hA
          have hfl' : m.first_length = m.first_end - m.first_start := by
            rw [hfl, subL_of_le _ _ htlt hB.1]
            exact Nat.mod_eq_of_lt hB.2
          omega
      have := hadv2.1
      rw [h1] at this
      simp only [MultiStep.state] at this
      omega

/-- The outer loop of `ping_multi` leaves the hits ordered, under a clock that never
decreases and when no computed time wraps or is truncated in any of its passes. -/
theorem ping_multi_loop_keeps_order (cfg : Config) (maximum_hits threshold_distance : Nat) :
    ∀ (fuel : Nat) (st : MultiState) (n : Nat) (stf : MultiState),
      ClockSorted st.world.clock → HitsOrdered st → st.i ≤ maximum_hits →
      maximum_hits ≤ st.hit.length →
      (∀ stk ∈ ping_multi_passes cfg maximum_hits threshold_distance fuel st,
        noWrapPass cfg maximum_hits threshold_distance stk = true) →
      ping_multi_loop cfg maximum_hits threshold_distance fuel st = some (n, stf) →
      HitsOrdered stf := by
  intro fuel
  induction fuel with
  | zero =>
    intro st n stf _ hord _ _ _ h
    simp only [ping_multi_loop] at h
    split_ifs at h
    simp only [Option.some.injEq, Prod.mk.injEq] at h
    rw [← h.2]; exact hord
  | succ fuel ih =>
    intro st n stf hclock hord hle hlen hnw h
    simp only [ping_multi_loop] at h
    by_cases hlt : st.i < maximum_hits
    · simp only [hlt, if_true] at h
      have hnw0 : noWrapPass cfg maximum_hits threshold_distance st = true :=
        hnw st (by simp [ping_multi_passes, hlt])
      cases hb : ping_multi_body cfg maximum_hits threshold_distance st with
      | none => simp [hb] at h
      | some r =>
        obtain ⟨hkeep, hnext⟩ := ping_multi_body_advance cfg maximum_hits threshold_distance
          st r hnw0 hclock hlt hb
        cases r with
        | done ret st1 =>
          simp only [hb, Option.some.injEq, Prod.mk.injEq] at h
          rw [← h.2]
          exact hkeep hord hlen
        | again st1 =>
          simp only [hb] at h
          obtain ⟨⟨_, hlen2, _⟩, hle2⟩ :=
            ping_multi_body_ok cfg maximum_hits threshold_distance st _ hlt hb
          refine ih st1 n stf (hnext st1 rfl).1 (hkeep hord hlen) hle2 (by omega) ?_ h
          intro stk hmem
          exact hnw stk (by simp [ping_multi_passes, hlt, hb, hmem])
    · simp only [hlt, if_false, Option.some.injEq, Prod.mk.injEq] at h
      rw [← h.2]; exact hord

/-- Every pass of the loop starts with ordered hits, under the same conditions. -/
theorem ping_multi_passes_ordered (cfg : Config) (maximum_hits threshold_distance : Nat) :
    ∀ (fuel : Nat) (st : MultiState),
      ClockSorted st.world.clock → HitsOrdered st → maximum_hits ≤ st.hit.length →
      (∀ stk ∈ ping_multi_passes cfg maximum_hits threshold_distance fuel st,
        noWrapPass cfg maximum_hits threshold_distance stk = true) →
      ∀ stk ∈ ping_multi_passes cfg maximum_hits threshold_distance fuel st,
        HitsOrdered stk ∧ ClockSorted stk.world.clock ∧ maximum_hits ≤ stk.hit.length := by
  intro fuel
  induction fuel with
  | zero => intro st _ _ _ _ stk hmem; simp [ping_multi_passes] at hmem
  | succ fuel ih =>
    intro st hclock hord hlen hnw stk hmem
    by_cases hlt : st.i < maximum_hits
    · have hnw0 : noWrapPass cfg maximum_hits threshold_distance st = true :=
        hnw st (by simp [ping_multi_passes, hlt])
      simp only [ping_multi_passes, hlt, if_true, List.mem_cons] at hmem
      rcases hmem with rfl | hmem
      · exact ⟨hord, hclock, hlen⟩
      · cases hb : ping_multi_body cfg maximum_hits threshold_distance st with
        | none => simp [hb] at hmem
        | some r =>
          cases r with
          | done ret st1 => simp [hb] at hmem
          | again st1 =>
            simp only [hb] at hmem
            obtain ⟨hkeep, hnext⟩ := ping_multi_body_advance cfg maximum_hits
              threshold_distance st _ hnw0 hclock hlt hb
            obtain ⟨⟨_, hlen2, _⟩, _⟩ :=
              ping_multi_body_ok cfg maximum_hits threshold_distance st _ hlt hb
            refine ih st1 (hnext st1 rfl).1 (hkeep hord hlen) (by omega) ?_ stk hmem
            intro stk2 hmem2
            exact hnw stk2 (by simp [ping_multi_passes, hlt, hb, hmem2])
    · simp [ping_multi_passes, hlt] at hmem

/-- C19: for every returning call of `ping_multi` on a buffer of at least
`maximum_hits` elements, under a clock that never decreases and when no computed time
wraps around or is truncated in any pass of the call: the echo times stored are in
non-decreasing order, in `hit[0..n)` as in all recorded hits, and the final `offset` is
not below any recorded hit; every pass starts with the hits recorded so far in order
and none above `offset`; and whenever a second pulse is sent with the variables `m.st`,
`offset` does not decrease and the hit recorded from that pulse, if any, is the new
`offset`, so it is at least the `offset` in force when the pulse was sent. -/
theorem ping_multi_hits_ordered (cfg : Config) (hit : List Nat)
    (maximum_hits threshold_distance max_distance : Nat) (s : Sensor) (w : World)
    (n : Nat) (st : MultiState)
    (hclock : ClockSorted w.clock)
    (hnowrap : ∀ stk ∈ ping_multi_starts cfg hit maximum_hits threshold_distance max_distance s w,
      noWrapPass cfg maximum_hits threshold_distance stk = true)
    (hlen : maximum_hits ≤ hit.length)
    (h : ping_multi cfg hit maximum_hits threshold_distance max_distance s w = some (n, st)) :
    (st.hit.take n).Sorted (· ≤ ·) ∧ (st.hit.take st.i).Sorted (· ≤ ·) ∧
    (∀ x ∈ st.hit.take st.i, x ≤ st.offset) ∧
    (∀ stk ∈ ping_multi_starts cfg hit maximum_hits threshold_distance max_distance s w,
      (stk.hit.take stk.i).Sorted (· ≤ ·) ∧ ∀ x ∈ stk.hit.take stk.i, x ≤ stk.offset) ∧
    (∀ stk ∈ ping_multi_starts cfg hit maximum_hits threshold_distance max_distance s w,
      ∀ m r,
        ping_multi_first cfg maximum_hits threshold_distance stk = some (MultiFirst.goesOn m) →
        ping_multi_second cfg maximum_hits m.first_max_time m.first_start m.first_length m.st
          = some r →
        m.st.offset ≤ r.state.offset ∧
        ((r.state.i = m.st.i ∧ r.state.hit = m.st.hit) ∨
         (r.state.i = m.st.i + 1 ∧ r.state.hit = m.st.hit.set m.st.i r.state.offset))) := by
  obtain ⟨_, hret, _, _⟩ :=
    ping_multi_ok cfg hit maximum_hits threshold_distance max_distance s w n st h
  unfold ping_multi at h
  unfold ping_multi_starts at hnowrap ⊢
  have hord0 : HitsOrdered
      { offset := 0, i := 0, hit := hit,
        sensor := if max_distance > 0 then set_max_distance cfg max_distance s else s,
        world := w } := ⟨by simp, by simp⟩
  obtain ⟨hs, hle⟩ := ping_multi_loop_keeps_order cfg maximum_hits threshold_distance
    _ _ n st hclock hord0 (Nat.zero_le _) hlen hnowrap h
  have hpasses := ping_multi_passes_ordered cfg maximum_hits threshold_distance _ _
    hclock hord0 hlen hnowrap
  refine ⟨?_, hs, hle, fun stk hmem => (hpasses stk hmem).1, ?_⟩
  · rcases hret with h1 | ⟨h1, _⟩
    · rw [h1]; exact hs
    · rw [h1]; simp
  · intro stk hmem m r hf hsec
    obtain ⟨_, hck, _⟩ := hpasses stk hmem
    have hlt := ping_multi_passes_lt cfg maximum_hits threshold_distance _ _ stk hmem
    obtain ⟨_, hclock1, _⟩ := ping_multi_first_goesOn hck hlt hf
    obtain ⟨_, _, hD, hpath⟩ := noWrapPass_spec (hnowrap stk hmem) hf
    exact (ping_multi_second_advance cfg maximum_hits m.first_max_time
      m.first_start m.first_length m.st r hclock1 hD hpath hsec).1

/-- C19 witness: the example trace of three passes on the default AVR build, with
clock readings from 996 to 71569, more than an `unsigned int` of microseconds apart: the
clock never decreases, no computed time wraps or is truncated, and the four hits 205,
337, 451 and 570 are stored in order, none above the final `offset` 570. -/
theorem ping_multi_hits_ordered_witness :
    (ping_multi avr [0, 0, 0, 0] 4 0 0 { maxEchoTime := 28557, max_time := 0 }
        threePasses).map (fun r => (r.1, r.2.hit, r.2.offset))
      = some (4, [205, 337, 451, 570], 570) ∧
    ClockSorted threePasses.clock ∧
    (∀ stk ∈ ping_multi_starts avr [0, 0, 0, 0] 4 0 0 { maxEchoTime := 28557, max_time := 0 }
        threePasses, noWrapPass avr 4 0 stk = true) ∧
    ¬ (71569 - 996 < avr.UINT) ∧
    (List.take 4 [205, 337, 451, 570]).Sorted (· ≤ ·) ∧
    ∀ x ∈ List.take 4 [205, 337, 451, 570], x ≤ 570 :=
  have h := ping_multi_hits_ordered avr [0, 0, 0, 0] 4 0 0
    { maxEchoTime := 28557, max_time := 0 } threePasses 4
    { offset := 570, i := 4, hit := [205, 337, 451, 570],
      sensor := { maxEchoTime := 28557, max_time := 100017 },
      world := triggerPulse avr (triggerPulse avr (World.act (triggerPulse avr (triggerPulse avr
        (World.act (triggerPulse avr (triggerPulse avr { echo := [], clock := [] }))
          (Action.delay 29)))) (Action.delay 29))) }
    (by decide) (by decide) (by decide) (by decide)
  ⟨by decide, by decide, by decide, by decide, h.1, h.2.2.1⟩

/-! ### The first-echo rule -/

end UltraPing
